import Mathlib

/-!
Shallow embedding of the GSTR-1 filing engine (backend/ of the GSTR repository).

Modelling conventions:
* Python `Decimal` values are exact rationals (`ℚ`); `Decimal('0.01')`-quantized
  values are rationals with denominator dividing 100.
* Python strings are `String` / `List Char`; `str.strip()` is `String.trim`,
  `str.upper()` / `str.lower()` are the ASCII character maps.
* Python `dict` grouping (`defaultdict(list)`) keyed in insertion order is
  modelled by first-seen key extraction over lists.
* Python truthiness of an optional string (`line.get(k)`) is "present and
  non-empty".
-/

namespace GSTR

/-! ### decimal_utils.py -/

/-- Round a rational to the nearest integer with ties away from zero:
Python `Decimal` rounding mode `ROUND_HALF_UP` applied at exponent 0.
(`Rat.floor` is used rather than `⌊·⌋` so that the definition evaluates
inside the kernel; the two agree, see `rat_floor_eq_intFloor`.) -/
def rhuInt (x : ℚ) : ℤ := if 0 ≤ x then (x + 1/2).floor else -((-x + 1/2).floor)

lemma rat_floor_eq_intFloor (q : ℚ) : Rat.floor q = ⌊q⌋ :=
  le_antisymm (Int.le_floor.mpr (Rat.le_floor.mp le_rfl))
    (Rat.le_floor.mpr (Int.floor_le q))

lemma rhuInt_eq_ite (x : ℚ) : rhuInt x = if 0 ≤ x then ⌊x + 1/2⌋ else -⌊-x + 1/2⌋ := by
  unfold rhuInt
  rw [rat_floor_eq_intFloor, rat_floor_eq_intFloor]

/-- `round_decimal(value, places)` from `decimal_utils.py`: quantize to
`places` decimal digits using ROUND_HALF_UP.  (Every branch of the Python
`if/elif` chain builds the quantizer `10^(-places)`.) -/
def round_decimal (v : ℚ) (places : ℕ := 2) : ℚ :=
  (rhuInt (v * 10 ^ places) : ℚ) / 10 ^ places

/-- Result dict of `compute_tax` in `decimal_utils.py`. -/
structure TaxSplit where
  tax_amount_raw : ℚ
  tax_amount : ℚ
  cgst_amount : ℚ
  sgst_amount : ℚ
  igst_amount : ℚ
  rounding_diff : ℚ
  is_intra_state : Bool
deriving DecidableEq, Repr

/-- `compute_tax(taxable_value, gst_rate, seller_state_code,
place_of_supply_code)` from `decimal_utils.py`. -/
def compute_tax (taxable_value gst_rate : ℚ)
    (seller_state_code place_of_supply_code : String) : TaxSplit :=
  let tax_amount_raw := taxable_value * gst_rate / 100
  let is_intra_state := seller_state_code == place_of_supply_code
  let cgst : ℚ := if is_intra_state then round_decimal (tax_amount_raw / 2) else 0
  let sgst : ℚ := if is_intra_state then round_decimal (tax_amount_raw - cgst) else 0
  let igst : ℚ := if is_intra_state then 0 else round_decimal tax_amount_raw
  let total_tax := cgst + sgst + igst
  { tax_amount_raw := tax_amount_raw
    tax_amount := total_tax
    cgst_amount := cgst
    sgst_amount := sgst
    igst_amount := igst
    rounding_diff := round_decimal tax_amount_raw - total_tax
    is_intra_state := is_intra_state }

/-! #### Arithmetic lemmas about half-up rounding -/

lemma rhuInt_neg (x : ℚ) : rhuInt (-x) = -rhuInt x := by
  rw [rhuInt_eq_ite, rhuInt_eq_ite]
  rcases lt_trichotomy x 0 with h | h | h
  · rw [if_pos (by linarith), if_neg (by linarith)]
    simp
  · subst h; norm_num
  · rw [if_neg (by linarith), if_pos (by linarith)]
    simp

lemma rhuInt_nonneg_eq (x : ℚ) (h : 0 ≤ x) : rhuInt x = ⌊x + 1/2⌋ := by
  rw [rhuInt_eq_ite, if_pos h]

/-- Half-up rounding error is at most 1/2 in absolute value. -/
lemma abs_rhuInt_sub_le (x : ℚ) : |(rhuInt x : ℚ) - x| ≤ 1/2 := by
  have key : ∀ y : ℚ, 0 ≤ y → |(rhuInt y : ℚ) - y| ≤ 1/2 := by
    intro y hy
    rw [rhuInt_nonneg_eq y hy]
    have h1 : (⌊y + 1/2⌋ : ℚ) ≤ y + 1/2 := Int.floor_le _
    have h2 : y + 1/2 < ⌊y + 1/2⌋ + 1 := Int.lt_floor_add_one _
    rw [abs_le]; constructor <;> linarith
  rcases le_or_lt 0 x with h | h
  · exact key x h
  · have hkey := key (-x) (by linarith)
    rw [rhuInt_neg] at hkey
    push_cast at hkey
    have e : -(rhuInt x : ℚ) - -x = -((rhuInt x : ℚ) - x) := by ring
    rw [e, abs_neg] at hkey
    exact hkey

/-- Subtracting an integer commutes with half-up rounding as long as the
argument does not change sign. -/
lemma rhuInt_sub_intCast (x : ℚ) (n : ℤ) (hx : 0 ≤ x) (hxn : 0 ≤ x - n) :
    rhuInt (x - n) = rhuInt x - n := by
  rw [rhuInt_nonneg_eq _ hxn, rhuInt_nonneg_eq _ hx]
  have : x - (n : ℚ) + 1/2 = (x + 1/2) - n := by ring
  rw [this, Int.floor_sub_int]

/-- The key split identity: rounding the half, then rounding the remainder
against the rounded half, reconstitutes the rounded whole exactly. -/
lemma rhuInt_half_split (y : ℚ) :
    rhuInt (y / 2) + rhuInt (y - rhuInt (y / 2)) = rhuInt y := by
  have key : ∀ z : ℚ, 0 ≤ z →
      rhuInt (z / 2) + rhuInt (z - rhuInt (z / 2)) = rhuInt z := by
    intro z hz
    have hm_le : (rhuInt (z / 2) : ℚ) ≤ z / 2 + 1/2 := by
      rw [rhuInt_nonneg_eq _ (by linarith)]
      exact Int.floor_le _
    have hrem : 0 ≤ z - rhuInt (z / 2) := by
      rcases le_or_lt 1 z with h1 | h1
      · linarith
      · have : rhuInt (z / 2) = 0 := by
          rw [rhuInt_nonneg_eq _ (by linarith)]
          rw [Int.floor_eq_zero_iff]
          constructor <;> simp <;> linarith
        rw [this]; push_cast; linarith
    rw [rhuInt_sub_intCast z _ hz hrem]
    ring
  rcases le_or_lt 0 y with h | h
  · exact key y h
  · have hneg := key (-y) (by linarith)
    have e1 : (-y) / 2 = -(y / 2) := by ring
    rw [e1, rhuInt_neg, rhuInt_neg] at hneg
    have e2 : -y - ((-(rhuInt (y / 2)) : ℤ) : ℚ) = -(y - rhuInt (y / 2)) := by
      push_cast; ring
    rw [e2, rhuInt_neg] at hneg
    omega

/-- `compute_tax` unfolded on the intra-state branch. -/
lemma compute_tax_intra (tv rate : ℚ) (s p : String) (h : (s == p) = true) :
    compute_tax tv rate s p =
      { tax_amount_raw := tv * rate / 100
        tax_amount := round_decimal (tv * rate / 100 / 2) +
          round_decimal (tv * rate / 100 - round_decimal (tv * rate / 100 / 2)) + 0
        cgst_amount := round_decimal (tv * rate / 100 / 2)
        sgst_amount := round_decimal (tv * rate / 100 - round_decimal (tv * rate / 100 / 2))
        igst_amount := 0
        rounding_diff := round_decimal (tv * rate / 100) -
          (round_decimal (tv * rate / 100 / 2) +
            round_decimal (tv * rate / 100 - round_decimal (tv * rate / 100 / 2)) + 0)
        is_intra_state := true } := by
  unfold compute_tax
  simp only [h, if_true]

/-- `compute_tax` unfolded on the inter-state branch. -/
lemma compute_tax_inter (tv rate : ℚ) (s p : String) (h : (s == p) = false) :
    compute_tax tv rate s p =
      { tax_amount_raw := tv * rate / 100
        tax_amount := 0 + 0 + round_decimal (tv * rate / 100)
        cgst_amount := 0
        sgst_amount := 0
        igst_amount := round_decimal (tv * rate / 100)
        rounding_diff := round_decimal (tv * rate / 100) -
          (0 + 0 + round_decimal (tv * rate / 100))
        is_intra_state := false } := by
  unfold compute_tax
  simp only [h, Bool.false_eq_true, if_false]

/-- The two-decimal-place instance of the split identity: the CGST/SGST legs
reconstitute the rounded total exactly. -/
lemma round2_half_split (raw : ℚ) :
    round_decimal (raw / 2) + round_decimal (raw - round_decimal (raw / 2)) =
      round_decimal raw := by
  simp only [round_decimal]
  norm_num
  have e1 : raw / 2 * 100 = raw * 100 / 2 := by ring
  have e2 : (raw - (rhuInt (raw * 100 / 2) : ℚ) / 100) * 100 =
      raw * 100 - (rhuInt (raw * 100 / 2) : ℚ) := by ring
  rw [e1, e2, div_add_div_same]
  congr 1
  exact_mod_cast rhuInt_half_split (raw * 100)

/-- C1.  For every taxable value and rate (and any pair of state codes), the
three components CGST + SGST + IGST returned by `compute_tax` sum exactly to
`round_decimal(taxable_value * rate / 100)` (two-decimal ROUND_HALF_UP), and
the returned `rounding_diff` is exactly zero. -/
theorem C1_tax_components_sum_and_zero_remainder (tv rate : ℚ) (s p : String) :
    (compute_tax tv rate s p).cgst_amount + (compute_tax tv rate s p).sgst_amount +
        (compute_tax tv rate s p).igst_amount = round_decimal (tv * rate / 100) ∧
      (compute_tax tv rate s p).rounding_diff = 0 := by
  have hsum : (compute_tax tv rate s p).cgst_amount + (compute_tax tv rate s p).sgst_amount +
      (compute_tax tv rate s p).igst_amount = round_decimal (tv * rate / 100) := by
    rcases hb : (s == p) with _ | _
    · rw [compute_tax_inter tv rate s p hb]
      simp
    · rw [compute_tax_intra tv rate s p hb]
      simpa using round2_half_split (tv * rate / 100)
  refine ⟨hsum, ?_⟩
  rcases hb : (s == p) with _ | _
  · rw [compute_tax_inter tv rate s p hb]
    simp
  · rw [compute_tax_intra tv rate s p hb]
    have := round2_half_split (tv * rate / 100)
    simp only
    linarith

/-- C7 counterexample.  The claim's clause "exactly one of the
same-jurisdiction pair vs the cross-jurisdiction component is non-zero" fails
on the code: at rate 0 (an intra-state split of taxable value 100), all three
components of `compute_tax` are zero, so neither the pair nor the cross
component is non-zero. -/
theorem C7_counterexample_all_components_zero :
    ((compute_tax 100 0 "27" "27").cgst_amount = 0 ∧
        (compute_tax 100 0 "27" "27").sgst_amount = 0 ∧
        (compute_tax 100 0 "27" "27").igst_amount = 0) ∧
      ¬(((compute_tax 100 0 "27" "27").cgst_amount ≠ 0 ∨
          (compute_tax 100 0 "27" "27").sgst_amount ≠ 0) ∨
        (compute_tax 100 0 "27" "27").igst_amount ≠ 0) := by
  rw [compute_tax_intra 100 0 "27" "27" rfl]
  norm_num [round_decimal, rhuInt_eq_ite]

/-- C7 (amended).  For every intra-state split the cross-jurisdiction (IGST)
component is zero and the two same-jurisdiction components differ by at most
0.01; for every inter-state split both same-jurisdiction components are zero;
hence at most one of (the CGST/SGST pair) vs (IGST) is ever non-zero — "never
both", though both sides are zero when the rounded tax is zero. -/
theorem C7_amended_split_exclusivity (tv rate : ℚ) (s p : String) :
    ((compute_tax tv rate s p).is_intra_state = true →
        (compute_tax tv rate s p).igst_amount = 0 ∧
          |(compute_tax tv rate s p).cgst_amount - (compute_tax tv rate s p).sgst_amount| ≤
            1 / 100) ∧
      ((compute_tax tv rate s p).is_intra_state = false →
        (compute_tax tv rate s p).cgst_amount = 0 ∧
          (compute_tax tv rate s p).sgst_amount = 0) ∧
      ¬(((compute_tax tv rate s p).cgst_amount ≠ 0 ∨
            (compute_tax tv rate s p).sgst_amount ≠ 0) ∧
          (compute_tax tv rate s p).igst_amount ≠ 0) := by
  rcases hb : (s == p) with _ | _
  · rw [compute_tax_inter tv rate s p hb]
    refine ⟨by simp, fun _ => ⟨rfl, rfl⟩, ?_⟩
    rintro ⟨hpair, -⟩
    rcases hpair with h | h <;> exact h rfl
  · have higst : (compute_tax tv rate s p).igst_amount = 0 := by
      rw [compute_tax_intra tv rate s p hb]
    have hintra : (compute_tax tv rate s p).is_intra_state = true := by
      rw [compute_tax_intra tv rate s p hb]
    have hgap : |(compute_tax tv rate s p).cgst_amount -
        (compute_tax tv rate s p).sgst_amount| ≤ 1 / 100 := by
      rw [compute_tax_intra tv rate s p hb]
      simp only [round_decimal]
      norm_num
      set y : ℚ := tv * rate / 100 * 100 with hy
      have e1 : tv * rate / 100 / 2 * 100 = y / 2 := by rw [hy]; ring
      have e2 : (tv * rate / 100 - (rhuInt (y / 2) : ℚ) / 100) * 100 =
          y - (rhuInt (y / 2) : ℚ) := by rw [hy]; ring
      rw [e1, e2, div_sub_div_same, abs_div]
      rw [show |(100 : ℚ)| = 100 by norm_num]
      rw [div_le_div_iff₀ (by norm_num) (by norm_num)]
      have hsplit := rhuInt_half_split y
      have hint : |2 * rhuInt (y / 2) - rhuInt y| ≤ 1 := by
        have hq : |((2 * rhuInt (y / 2) - rhuInt y : ℤ) : ℚ)| ≤ 3 / 2 := by
          push_cast
          have d1 := abs_rhuInt_sub_le (y / 2)
          have d2 := abs_rhuInt_sub_le y
          rw [abs_le] at d1 d2 ⊢
          constructor <;> linarith [d1.1, d1.2, d2.1, d2.2]
        by_contra hcon
        push_neg at hcon
        have h2le : (2 : ℤ) ≤ |2 * rhuInt (y / 2) - rhuInt y| := hcon
        have : (2 : ℚ) ≤ |((2 * rhuInt (y / 2) - rhuInt y : ℤ) : ℚ)| := by
          rw [← Int.cast_abs]
          exact_mod_cast h2le
        linarith
      have heq : (rhuInt (y / 2) : ℚ) - (rhuInt (y - rhuInt (y / 2)) : ℚ) =
          ((2 * rhuInt (y / 2) - rhuInt y : ℤ) : ℚ) := by
        have h3 : rhuInt (y - rhuInt (y / 2)) = rhuInt y - rhuInt (y / 2) := by omega
        rw [h3]; push_cast; ring
      rw [heq, ← Int.cast_abs]
      have hfin : ((|2 * rhuInt (y / 2) - rhuInt y| : ℤ) : ℚ) ≤ ((1 : ℤ) : ℚ) := by
        exact_mod_cast hint
      have hone : ((1 : ℤ) : ℚ) = 1 := by norm_num
      linarith [hfin, hone.le, hone.ge]
    refine ⟨fun _ => ⟨higst, hgap⟩, fun hfalse => ?_, ?_⟩
    · rw [hintra] at hfalse; cases hfalse
    · rintro ⟨-, hig⟩; exact hig higst

/-- Witness for `C7_amended_split_exclusivity` at concrete inputs: an
intra-state split with an odd number of paise (the second leg absorbs the odd
paisa) and an inter-state split. -/
theorem C7_amended_split_exclusivity_witness :
    ((compute_tax 1 15 "27" "27").igst_amount = 0 ∧
        |(compute_tax 1 15 "27" "27").cgst_amount -
            (compute_tax 1 15 "27" "27").sgst_amount| ≤ 1 / 100) ∧
      ((compute_tax 1 15 "27" "29").cgst_amount = 0 ∧
        (compute_tax 1 15 "27" "29").sgst_amount = 0) :=
  ⟨(C7_amended_split_exclusivity 1 15 "27" "27").1 rfl,
    (C7_amended_split_exclusivity 1 15 "27" "29").2.1 rfl⟩

/-! ### invoice_range_detector.py -/

/-- Python `str.strip()`: drop whitespace from both ends. -/
def pyStrip (s : String) : String :=
  String.mk ((s.data.dropWhile Char.isWhitespace).reverse.dropWhile Char.isWhitespace).reverse

/-- Python `str.upper()` (ASCII letters; the inputs in scope are ASCII). -/
def pyUpper (s : String) : String := String.mk (s.data.map Char.toUpper)

/-- Python `str.lower()` (ASCII letters; the inputs in scope are ASCII). -/
def pyLower (s : String) : String := String.mk (s.data.map Char.toLower)

/-- `normalize_invoice_no`: trim and uppercase (an empty number stays empty,
matching the `if not invoice_no: return ""` guard). -/
def normalize_invoice_no (s : String) : String := pyUpper (pyStrip s)

/-- Length of the maximal run of ASCII digits at the end of the string. -/
def trailingDigitRun (cs : List Char) : ℕ := (cs.reverse.takeWhile Char.isDigit).length

/-- Value of a list of ASCII digit characters read in base 10 (`int(num_str)`). -/
def digitsToNat (cs : List Char) : ℕ :=
  cs.foldl (fun n c => 10 * n + (c.toNat - '0'.toNat)) 0

/-- `split_prefix_number`: Python `re.match(r'^(.+?)(\d{1,12})$', s)`.
The non-greedy one-or-more-character group makes the digit suffix as long as
possible, capped at the last 12 digits and leaving at least one character of
prefix; `.` does not match a newline, so a match exists iff the string has
length ≥ 2, ends in a digit, and the part ahead of the chosen digit suffix is
newline-free.  Returns `(prefix, int(suffix), len(suffix))`. -/
def split_prefix_number (s : String) : Option (String × ℕ × ℕ) :=
  let cs := s.data
  let len := cs.length
  let d := trailingDigitRun cs
  if len < 2 ∨ d = 0 then none
  else
    let suffixLen := min d (min 12 (len - 1))
    let pfxChars := cs.take (len - suffixLen)
    if '\n' ∈ pfxChars then none
    else some (String.mk pfxChars, digitsToNat (cs.drop (len - suffixLen)), suffixLen)

/-- `str(number).zfill(pad_length)` followed by prefix concatenation:
`format_serial`. -/
def format_serial (pfx : String) (number pad : ℕ) : String :=
  pfx ++ String.mk (List.replicate (pad - (toString number).length) '0') ++ toString number

/-- The six recognized document-type strings of `DocumentType`; an
unrecognized string falls back to `tax_invoice` (the `except ValueError`
branch of `detect_ranges`). -/
def normalizeDocType (s : String) : String :=
  if s ∈ ["tax_invoice", "credit_note", "debit_note", "delivery_challan",
      "refund_voucher", "receipt_voucher"] then s else "tax_invoice"

/-- One input line of `detect_ranges`: the raw invoice number and the
`doc_type` string. -/
structure RangeLine where
  invoice_no : String
  doc_type : String
deriving DecidableEq, Repr

/-- One member dict of `sequential_groups[doc_type][prefix]`. -/
structure SeqEntry where
  raw : String
  norm : String
  pfx : String
  number : ℕ
  pad : ℕ
deriving DecidableEq, Repr

/-- The members appended to `sequential_groups[dt][pfx]` by the grouping loop
of `detect_ranges`, in input order: lines with a non-empty invoice number
whose normalized form splits with prefix `pfx`, carrying doc type `dt`. -/
def seqEntryOf (dt pfx : String) (l : RangeLine) : Option SeqEntry :=
  if l.invoice_no = "" then none
  else
    match split_prefix_number (normalize_invoice_no l.invoice_no) with
    | some (p, n, pad) =>
        if l.doc_type = dt ∧ p = pfx then
          some ⟨l.invoice_no, normalize_invoice_no l.invoice_no, p, n, pad⟩
        else none
    | none => none

def groupEntries (lines : List RangeLine) (dt pfx : String) : List SeqEntry :=
  lines.filterMap (seqEntryOf dt pfx)

/-- The raw invoice numbers accumulated in `non_sequential_groups[dt]`, in
input order: non-empty numbers whose normalized form does not split. -/
def nonSeqNumbers (lines : List RangeLine) (dt : String) : List String :=
  lines.filterMap fun l =>
    if l.invoice_no ≠ "" ∧ l.doc_type = dt ∧
        split_prefix_number (normalize_invoice_no l.invoice_no) = none then
      some l.invoice_no
    else none

/-- `DocumentRange` (models_canonical.py), without the id/upload/timestamp
bookkeeping fields. -/
structure DocumentRange where
  doc_type : String
  pfx : String
  first_serial : ℕ
  last_serial : ℕ
  found_count : ℕ
  expected_count : ℕ
  cancelled_count : ℕ
  cancelled_list : List ℕ
  cancelled_ranges : List (ℕ × ℕ)
  doc_from : String
  doc_to : String
deriving DecidableEq, Repr

/-- The `for i in range(first_serial, last_serial + 1): if i not in numbers`
loop collecting missing serials, in increasing order. -/
def missingBetween (first last : ℕ) (nums : List ℕ) : List ℕ :=
  (List.range' first (last + 1 - first)).filter fun i => decide (i ∉ nums)

/-- Inner loop of the cancelled-list compression into contiguous ranges. -/
def compressAux (start curEnd : ℕ) : List ℕ → List (ℕ × ℕ)
  | [] => [(start, curEnd)]
  | n :: rest =>
      if n = curEnd + 1 then compressAux start n rest
      else (start, curEnd) :: compressAux n n rest

/-- Compression of the sorted cancelled list into `[{start, end}]` pairs. -/
def compressRanges : List ℕ → List (ℕ × ℕ)
  | [] => []
  | n :: rest => compressAux n n rest

/-- The per-(doc_type, prefix) body of `detect_ranges`: distinct serials,
first/last, found/expected counts, missing serials (count kept in full, list
truncated to the first 100), compressed ranges, and the display strings
formatted with the group's maximal zero-pad width. -/
def buildRange (dt pfx : String) (entries : List SeqEntry) : DocumentRange :=
  let nums := List.insertionSort (· ≤ ·) (entries.map SeqEntry.number).dedup
  let first := nums.head?.getD 0
  let last := nums.getLast?.getD 0
  let cancelled := missingBetween first last nums
  let pad := (entries.map SeqEntry.pad).foldr max 0
  { doc_type := normalizeDocType dt
    pfx := pfx
    first_serial := first
    last_serial := last
    found_count := nums.length
    expected_count := last - first + 1
    cancelled_count := cancelled.length
    cancelled_list := cancelled.take 100
    cancelled_ranges := compressRanges cancelled
    doc_from := format_serial pfx first pad
    doc_to := format_serial pfx last pad }

/-- The `DocumentRange` that `detect_ranges` produces for the group keyed by
`(dt, pfx)`. -/
def detectGroupRange (lines : List RangeLine) (dt pfx : String) : DocumentRange :=
  buildRange dt pfx (groupEntries lines dt pfx)

/-! #### Lemmas about the range detector -/

lemma sorted_head_le {l : List ℕ} (h : l.Sorted (· ≤ ·)) {n : ℕ} (hn : n ∈ l) :
    l.head?.getD 0 ≤ n := by
  cases l with
  | nil => cases hn
  | cons a t =>
      rcases List.mem_cons.mp hn with rfl | hmem
      · simp
      · simpa using (List.sorted_cons.mp h).1 n hmem

lemma sorted_le_getLast {l : List ℕ} (h : l.Sorted (· ≤ ·)) :
    ∀ n ∈ l, n ≤ l.getLast?.getD 0 := by
  induction l with
  | nil => intro n hn; cases hn
  | cons a t ih =>
      intro n hn
      cases t with
      | nil => simp at hn ⊢; omega
      | cons b t' =>
          have hsort := (List.sorted_cons.mp h).2
          have hlast : (a :: b :: t').getLast?.getD 0 = (b :: t').getLast?.getD 0 := by
            simp [List.getLast?]
          rw [hlast]
          rcases List.mem_cons.mp hn with rfl | hmem
          · exact ((List.sorted_cons.mp h).1 b (by simp)).trans (ih hsort b (by simp))
          · exact ih hsort n hmem

instance : LeftCommutative (fun (a b : ℕ) => max a b) :=
  ⟨fun a b c => by rw [← Nat.max_assoc, ← Nat.max_assoc, Nat.max_comm a b]⟩

/-- The sorted list of distinct serials of a group. -/
def groupNums (entries : List SeqEntry) : List ℕ :=
  List.insertionSort (· ≤ ·) (entries.map SeqEntry.number).dedup

lemma groupNums_sorted (entries : List SeqEntry) : (groupNums entries).Sorted (· ≤ ·) :=
  List.sorted_insertionSort _ _

lemma groupNums_nodup (entries : List SeqEntry) : (groupNums entries).Nodup :=
  ((List.perm_insertionSort _ _).nodup_iff).mpr (List.nodup_dedup _)

lemma groupNums_ne_nil {entries : List SeqEntry} (h : entries ≠ []) :
    groupNums entries ≠ [] := by
  intro hcon
  unfold groupNums at hcon
  have hp := List.perm_insertionSort (· ≤ ·) (entries.map SeqEntry.number).dedup
  rw [hcon] at hp
  have h2 := (List.dedup_eq_nil _).mp hp.symm.eq_nil
  exact h (List.map_eq_nil_iff.mp h2)

/-- Invariant: `found_count + cancelled_count = expected_count` for a
non-empty group. -/
lemma buildRange_counts (dt pfx : String) (entries : List SeqEntry)
    (hne : entries ≠ []) :
    (buildRange dt pfx entries).found_count + (buildRange dt pfx entries).cancelled_count =
      (buildRange dt pfx entries).expected_count := by
  have hnums : groupNums entries ≠ [] := groupNums_ne_nil hne
  set nums := groupNums entries with hnumsdef
  set first := nums.head?.getD 0 with hfirst
  set last := nums.getLast?.getD 0 with hlast
  have hsorted := groupNums_sorted entries
  have hnodup := groupNums_nodup entries
  have hhead_mem : first ∈ nums := by
    cases hn : nums with
    | nil => exact absurd hn hnums
    | cons a t => rw [hfirst, hn]; simp
  have hfl : first ≤ last := sorted_le_getLast hsorted first hhead_mem
  have hbounds : ∀ n ∈ nums, first ≤ n ∧ n ≤ last := fun n hn =>
    ⟨sorted_head_le hsorted hn, sorted_le_getLast hsorted n hn⟩
  -- the sub-list of [first..last] that lies in `nums` is `nums` itself
  have hfilter_eq : (List.range' first (last + 1 - first)).filter
      (fun i => decide (i ∈ nums)) = nums := by
    apply List.eq_of_perm_of_sorted
      ((List.perm_ext_iff_of_nodup ((List.nodup_range' _ _).filter _) hnodup).mpr ?_)
      (List.Pairwise.filter _ (List.pairwise_le_range' _ _))
      hsorted
    intro a
    simp only [List.mem_filter, List.mem_range'_1, decide_eq_true_eq]
    constructor
    · rintro ⟨-, ha⟩; exact ha
    · intro ha
      rcases hbounds a ha with ⟨h1, h2⟩
      exact ⟨⟨h1, by omega⟩, ha⟩
  have hlen := List.length_eq_length_filter_add
    (l := List.range' first (last + 1 - first)) (fun i => decide (i ∈ nums))
  rw [hfilter_eq, List.length_range'] at hlen
  have hmiss : missingBetween first last nums =
      (List.range' first (last + 1 - first)).filter (fun i => !decide (i ∈ nums)) := by
    unfold missingBetween
    exact List.filter_congr (fun i _ => by simp)
  show nums.length + (missingBetween first last nums).length = last - first + 1
  rw [hmiss]
  omega

/-- A permutation of the entry list leaves the produced `DocumentRange`
unchanged. -/
lemma buildRange_perm (dt pfx : String) {entries entries' : List SeqEntry}
    (p : entries.Perm entries') :
    buildRange dt pfx entries = buildRange dt pfx entries' := by
  have hnums : groupNums entries = groupNums entries' :=
    List.eq_of_perm_of_sorted
      ((List.perm_insertionSort _ _).trans
        (((p.map SeqEntry.number).dedup).trans (List.perm_insertionSort _ _).symm))
      (groupNums_sorted entries) (groupNums_sorted entries')
  have hpad : (entries.map SeqEntry.pad).foldr max 0 =
      (entries'.map SeqEntry.pad).foldr max 0 :=
    (p.map SeqEntry.pad).foldr_eq 0
  unfold buildRange
  rw [show List.insertionSort (· ≤ ·) (entries.map SeqEntry.number).dedup =
      groupNums entries from rfl,
    show List.insertionSort (· ≤ ·) (entries'.map SeqEntry.number).dedup =
      groupNums entries' from rfl, hnums, hpad]

/-- A duplicated entry collapses: it contributes neither a new serial nor a
different pad width. -/
lemma buildRange_dup (dt pfx : String) (e : SeqEntry) (rest : List SeqEntry) :
    buildRange dt pfx (e :: e :: rest) = buildRange dt pfx (e :: rest) := by
  have hnums : groupNums (e :: e :: rest) = groupNums (e :: rest) := by
    unfold groupNums
    simp only [List.map_cons]
    rw [List.dedup_cons_of_mem (a := e.number)
      (l := e.number :: rest.map SeqEntry.number) (by simp)]
  have hpad : ((e :: e :: rest).map SeqEntry.pad).foldr max 0 =
      ((e :: rest).map SeqEntry.pad).foldr max 0 := by
    simp only [List.map_cons, List.foldr_cons]
    rw [← Nat.max_assoc, Nat.max_self]
  unfold buildRange
  rw [show List.insertionSort (· ≤ ·) ((e :: e :: rest).map SeqEntry.number).dedup =
      groupNums (e :: e :: rest) from rfl,
    show List.insertionSort (· ≤ ·) ((e :: rest).map SeqEntry.number).dedup =
      groupNums (e :: rest) from rfl, hnums, hpad]

/-- C3.  For every (doc_type, prefix) group produced by range detection,
`found_count + cancelled_count = expected_count` (the number of reported
missing serials is `cancelled_count`); the group's `DocumentRange` is
identical for any permutation of the input lines; and a duplicated input
line collapses to a single serial (dropping one copy changes nothing). -/
theorem C3_range_invariant_and_order_independence
    (lines lines' : List RangeLine) (dt pfx : String)
    (hne : groupEntries lines dt pfx ≠ []) (hperm : lines.Perm lines') :
    ((detectGroupRange lines dt pfx).found_count +
        (detectGroupRange lines dt pfx).cancelled_count =
      (detectGroupRange lines dt pfx).expected_count) ∧
      detectGroupRange lines' dt pfx = detectGroupRange lines dt pfx ∧
      ∀ (x : RangeLine) (rest : List RangeLine),
        detectGroupRange (x :: x :: rest) dt pfx = detectGroupRange (x :: rest) dt pfx := by
  refine ⟨buildRange_counts dt pfx _ hne, ?_, ?_⟩
  · exact buildRange_perm dt pfx (List.Perm.filterMap _ hperm.symm)
  · intro x rest
    unfold detectGroupRange groupEntries
    cases hx : seqEntryOf dt pfx x with
    | none => simp only [List.filterMap_cons, hx]
    | some e =>
        simp only [List.filterMap_cons, hx]
        exact buildRange_dup dt pfx e _

/-- Witness for `C3_range_invariant_and_order_independence`: the spec's
scenario INV001, INV002, INV004, INV005 (INV003 absent), permuted. -/
theorem C3_range_invariant_witness :
    ((detectGroupRange [⟨"INV001", "tax_invoice"⟩, ⟨"INV002", "tax_invoice"⟩,
        ⟨"INV004", "tax_invoice"⟩, ⟨"INV005", "tax_invoice"⟩] "tax_invoice" "INV").found_count +
      (detectGroupRange [⟨"INV001", "tax_invoice"⟩, ⟨"INV002", "tax_invoice"⟩,
        ⟨"INV004", "tax_invoice"⟩, ⟨"INV005", "tax_invoice"⟩] "tax_invoice" "INV").cancelled_count =
      (detectGroupRange [⟨"INV001", "tax_invoice"⟩, ⟨"INV002", "tax_invoice"⟩,
        ⟨"INV004", "tax_invoice"⟩, ⟨"INV005", "tax_invoice"⟩] "tax_invoice" "INV").expected_count) ∧
    detectGroupRange [⟨"INV005", "tax_invoice"⟩, ⟨"INV001", "tax_invoice"⟩,
        ⟨"INV004", "tax_invoice"⟩, ⟨"INV002", "tax_invoice"⟩] "tax_invoice" "INV" =
      detectGroupRange [⟨"INV001", "tax_invoice"⟩, ⟨"INV002", "tax_invoice"⟩,
        ⟨"INV004", "tax_invoice"⟩, ⟨"INV005", "tax_invoice"⟩] "tax_invoice" "INV" := by
  have h := C3_range_invariant_and_order_independence
    [⟨"INV001", "tax_invoice"⟩, ⟨"INV002", "tax_invoice"⟩,
      ⟨"INV004", "tax_invoice"⟩, ⟨"INV005", "tax_invoice"⟩]
    [⟨"INV005", "tax_invoice"⟩, ⟨"INV001", "tax_invoice"⟩,
      ⟨"INV004", "tax_invoice"⟩, ⟨"INV002", "tax_invoice"⟩]
    "tax_invoice" "INV" (by decide) (by decide)
  exact ⟨h.1, h.2.1⟩

/-! #### Serial splitting edge cases (C10) -/

lemma trailingDigitRun_pos {cs : List Char} {c : Char}
    (hlast : cs.getLast? = some c) (hdig : c.isDigit = true) :
    1 ≤ trailingDigitRun cs := by
  unfold trailingDigitRun
  rw [← List.head?_reverse] at hlast
  cases hrev : cs.reverse with
  | nil => rw [hrev] at hlast; cases hlast
  | cons a t =>
      rw [hrev] at hlast
      simp only [List.head?] at hlast
      cases hlast
      rw [List.takeWhile_cons, hdig]
      simp

lemma trailingDigitRun_eq_zero {cs : List Char} {c : Char}
    (hlast : cs.getLast? = some c) (hdig : c.isDigit = false) :
    trailingDigitRun cs = 0 := by
  unfold trailingDigitRun
  rw [← List.head?_reverse] at hlast
  cases hrev : cs.reverse with
  | nil => rw [hrev] at hlast; cases hlast
  | cons a t =>
      rw [hrev] at hlast
      simp only [List.head?] at hlast
      cases hlast
      rw [List.takeWhile_cons, hdig]
      simp

/-- C10 counterexample.  The normalized document number `"A\n1"` has length 2
or more and ends in a digit, yet `split_prefix_number` fails on it — Python's
`.` in `^(.+?)(\d{1,12})$` does not match a newline — and the number is
routed to the non-sequential list, refuting the claim as stated. -/
theorem C10_counterexample_newline_splits_none :
    2 ≤ ("A\n1" : String).data.length ∧
      ("A\n1" : String).data.getLast? = some '1' ∧ ('1').isDigit = true ∧
      normalize_invoice_no "A\n1" = "A\n1" ∧
      split_prefix_number "A\n1" = none ∧
      "A\n1" ∈ nonSeqNumbers [⟨"A\n1", "tax_invoice"⟩] "tax_invoice" := by
  decide

/-- C10 (amended).  For every normalized document number of length ≥ 2 that
ends in a digit and contains no newline, the prefix/suffix split succeeds
with a non-empty prefix and a digit suffix of at most the last 12 digits
(`"00123"` splits as `("0", 123, 4)`); a number that fails to split (in
particular one of length < 2 or ending in a non-digit) is routed to the
non-sequential list; a single-character number or one ending in a non-digit
never splits. -/
theorem C10_amended_split_prefix_number (s : String) :
    (2 ≤ s.data.length →
      (∀ c, s.data.getLast? = some c → c.isDigit = true) →
      '\n' ∉ s.data →
      ∃ p n pad, split_prefix_number s = some (p, n, pad) ∧
        p ≠ "" ∧ 1 ≤ pad ∧ pad ≤ 12) ∧
    split_prefix_number "00123" = some ("0", 123, 4) ∧
    (∀ (l : RangeLine) (dt : String), l.doc_type = dt → l.invoice_no ≠ "" →
      split_prefix_number (normalize_invoice_no l.invoice_no) = none →
      l.invoice_no ∈ nonSeqNumbers [l] dt) ∧
    (s.data.length < 2 → split_prefix_number s = none) ∧
    (∀ c, s.data.getLast? = some c → c.isDigit = false →
      split_prefix_number s = none) := by
  refine ⟨?_, by decide, ?_, ?_, ?_⟩
  · intro hlen hdig hnl
    obtain ⟨c, hc⟩ : ∃ c, s.data.getLast? = some c := by
      cases hd : s.data.getLast? with
      | none =>
          rw [List.getLast?_eq_none_iff] at hd
          rw [hd] at hlen; simp at hlen
      | some c => exact ⟨c, rfl⟩
    have hrun := trailingDigitRun_pos hc (hdig c hc)
    unfold split_prefix_number
    rw [if_neg (by omega)]
    set suffixLen := min (trailingDigitRun s.data) (min 12 (s.data.length - 1)) with hsl
    have h1 : 1 ≤ suffixLen := by omega
    have h12 : suffixLen ≤ 12 := by omega
    rw [if_neg (fun hmem => hnl (List.take_subset _ _ hmem))]
    refine ⟨_, _, _, rfl, ?_, h1, h12⟩
    intro hcon
    have hdata := congrArg String.data hcon
    simp only [String.data] at hdata
    rcases List.take_eq_nil_iff.mp hdata with h0 | h0
    · omega
    · rw [h0] at hlen; simp at hlen
  · intro l dt hdt hno hsplit
    subst hdt
    simp [nonSeqNumbers, hno, hsplit]
  · intro hlen
    unfold split_prefix_number
    rw [if_pos (Or.inl hlen)]
  · intro c hc hdig
    have := trailingDigitRun_eq_zero hc hdig
    unfold split_prefix_number
    rw [if_pos (Or.inr this)]

/-- Witness for `C10_amended_split_prefix_number` at `"00123"` (the all-digit
case) and at failing inputs `"5"` and `"ABC"`. -/
theorem C10_amended_split_witness :
    (∃ p n pad, split_prefix_number "00123" = some (p, n, pad) ∧
        p ≠ "" ∧ 1 ≤ pad ∧ pad ≤ 12) ∧
      "ABC-" ∈ nonSeqNumbers [⟨"ABC-", "tax_invoice"⟩] "tax_invoice" ∧
      split_prefix_number "5" = none ∧
      split_prefix_number "ABC" = none :=
  ⟨(C10_amended_split_prefix_number "00123").1 (by decide)
      (by intro c hc; cases hc; rfl) (by decide),
    (C10_amended_split_prefix_number "x").2.2.1 ⟨"ABC-", "tax_invoice"⟩
      "tax_invoice" rfl (by decide) (by decide),
    (C10_amended_split_prefix_number "5").2.2.2.1 (by decide),
    (C10_amended_split_prefix_number "ABC").2.2.2.2 'C' (by decide) (by decide)⟩

/-! ### gstr1_generator_schema_driven.py -/

/-- One invoice-line dict as consumed by `SchemaDriverGSTR1Generator`.
Monetary fields hold the values `parse_money` produces from the stored data;
`igst/cgst/sgst` are the `computed_tax` sub-dict entries. -/
structure GLine where
  gstin_uin : Option String
  doc_type : String
  invoice_no_raw : String
  invoice_no_norm : String
  invoice_date : Option String
  place_of_supply_code : String
  taxable_value : ℚ
  gst_rate : ℚ
  igst_amount : ℚ
  cgst_amount : ℚ
  sgst_amount : ℚ
  is_reverse_charge : Bool
  origin : String
deriving DecidableEq, Repr

/-- Python truthiness of `line.get("gstin_uin")`: present and non-empty. -/
def truthy : Option String → Bool
  | none => false
  | some s => !(s == "")

/-- `str(line.get("gstin_uin", "")).strip()`. -/
def gstinStripped (l : GLine) : String := pyStrip (l.gstin_uin.getD "")

/-- Filter of `generate_b2b`: registered buyer (non-empty GSTIN of exactly 15
characters after strip) on a tax invoice. -/
def inB2B (l : GLine) : Bool :=
  truthy l.gstin_uin && ((gstinStripped l).length == 15) && (l.doc_type == "tax_invoice")

/-- Filter of `generate_cdnr`: registered buyer on a credit/debit note. -/
def inCDNR (l : GLine) : Bool :=
  truthy l.gstin_uin && ((gstinStripped l).length == 15) &&
    (l.doc_type == "credit_note" || l.doc_type == "debit_note")

/-- Filter of `generate_cdnur`: unregistered buyer on a credit/debit note. -/
def inCDNUR (l : GLine) : Bool :=
  !truthy l.gstin_uin && (l.doc_type == "credit_note" || l.doc_type == "debit_note")

/-- The per-line eligibility test of `generate_b2cl`/`generate_b2cs`'s
invoice grouping: no GSTIN and a tax invoice. -/
def isUnregInvoice (l : GLine) : Bool :=
  !truthy l.gstin_uin && (l.doc_type == "tax_invoice")

/-- Document-level total: the sum of `taxable_value` over the unregistered
tax-invoice lines sharing a normalized invoice number (the grouping pre-pass
of `generate_b2cl`/`generate_b2cs`). -/
def docTotal (lines : List GLine) (inum : String) : ℚ :=
  ((lines.filter fun l => isUnregInvoice l && (l.invoice_no_norm == inum)).map
    GLine.taxable_value).sum

/-- Membership in the B2CL section: an unregistered tax-invoice line whose
document total exceeds 2.5 lakh. -/
def inB2CL (lines : List GLine) (l : GLine) : Bool :=
  isUnregInvoice l && decide (docTotal lines l.invoice_no_norm > 250000)

/-- Membership in the B2CS section: an unregistered tax-invoice line whose
document total is at most 2.5 lakh. -/
def inB2CS (lines : List GLine) (l : GLine) : Bool :=
  isUnregInvoice l && decide (docTotal lines l.invoice_no_norm ≤ 250000)

/-- The flags saying which of the five line-classified sections
(b2b, b2cl, b2cs, cdnr, cdnur) of the schema-driven generator admit `l`. -/
def sectionFlags (lines : List GLine) (l : GLine) : List Bool :=
  [inB2B l, inB2CL lines l, inB2CS lines l, inCDNR l, inCDNUR l]

/-! #### Python-dict grouping (insertion-ordered) -/

/-- Keys in first-seen order, skipping keys already seen — the iteration
order of a Python dict built by insertion. -/
def firstSeenKeys {κ : Type} [DecidableEq κ] (seen : List κ) : List κ → List κ
  | [] => []
  | k :: ks => if k ∈ seen then firstSeenKeys seen ks else k :: firstSeenKeys (k :: seen) ks

/-- `defaultdict(list)` grouping: keys in first-seen order, each with its
members in input order. -/
def dictGroups {α κ : Type} [DecidableEq κ] (key : α → κ) (l : List α) :
    List (κ × List α) :=
  (firstSeenKeys [] (l.map key)).map fun k => (k, l.filter fun a => decide (key a = k))

/-- `format_for_json`: round to two decimals (the `float(...)` conversion is
the identity on two-decimal values in this model). -/
def format_for_json (v : ℚ) : ℚ := round_decimal v

/-- `_format_date`: ISO `YYYY-MM-DD` becomes `DD-MM-YYYY`; anything else
passes through; missing dates become `""`. -/
def format_date : Option String → String
  | none => ""
  | some s =>
      if s = "" then ""
      else
        match s.splitOn "-" with
        | [y, m, d] => d ++ "-" ++ m ++ "-" ++ y
        | _ => s

/-- The `itm_det` dict of a rate-wise item. -/
structure ItemDet where
  rt : ℚ
  txval : ℚ
  iamt : ℚ
  camt : ℚ
  samt : ℚ
  csamt : ℚ
deriving DecidableEq, Repr

/-- One numbered rate-wise item. -/
structure RateItem where
  num : ℕ
  itm_det : ItemDet
deriving DecidableEq, Repr

/-- `_aggregate_by_rate`: group lines by GST rate (insertion order), sum the
monetary fields, then emit one item per rate sorted ascending by rate and
numbered from 1.  (`csamt` is initialized to zero and never incremented.) -/
def aggregate_by_rate (lines : List GLine) : List RateItem :=
  let grouped := dictGroups (fun l => l.gst_rate) lines
  let sortedG := List.insertionSort (fun a b : ℚ × List GLine => a.1 ≤ b.1) grouped
  sortedG.enum.map fun (i, rt, ls) =>
    { num := i + 1
      itm_det :=
        { rt := rt
          txval := format_for_json ((ls.map GLine.taxable_value).sum)
          iamt := format_for_json ((ls.map GLine.igst_amount).sum)
          camt := format_for_json ((ls.map GLine.cgst_amount).sum)
          samt := format_for_json ((ls.map GLine.sgst_amount).sum)
          csamt := format_for_json 0 } }

/-- One invoice dict of the B2B section. -/
structure B2BInvoice where
  inum : String
  idt : String
  val : ℚ
  pos : String
  rchrg : String
  inv_typ : String
  itms : List RateItem
deriving DecidableEq, Repr

/-- One buyer group of the B2B section. -/
structure B2BEntry where
  ctin : String
  inv : List B2BInvoice
deriving DecidableEq, Repr

/-- `generate_b2b`: filter registered tax-invoice lines, group by buyer GSTIN
(insertion order — the groups are NOT sorted), group each buyer's lines by
invoice number, and aggregate. -/
def generate_b2b (lines : List GLine) : List B2BEntry :=
  let b2b_lines := lines.filter inB2B
  (dictGroups gstinStripped b2b_lines).map fun (ctin, ls) =>
    { ctin := ctin
      inv := (dictGroups GLine.invoice_no_norm ls).map fun (_, inv_lines) =>
        { inum := ((inv_lines.head?.map GLine.invoice_no_raw).getD "")
          idt := format_date ((inv_lines.head?.map GLine.invoice_date).getD none)
          val := format_for_json ((inv_lines.map GLine.taxable_value).sum)
          pos := ((inv_lines.head?.map GLine.place_of_supply_code).getD "")
          rchrg := if (inv_lines.head?.map GLine.is_reverse_charge).getD false
            then "Y" else "N"
          inv_typ := "R"
          itms := aggregate_by_rate inv_lines } }

/-- One aggregated row of the B2CS section. -/
structure B2CSEntry where
  pos : String
  rt : ℚ
  typ : String
  txval : ℚ
  iamt : ℚ
  camt : ℚ
  samt : ℚ
  csamt : ℚ
deriving DecidableEq, Repr

/-- The `typ` field: `"E"` for e-commerce (meesho origin), else `"OE"`. -/
def b2csTyp (l : GLine) : String := if l.origin == "meesho" then "E" else "OE"

/-- The key used by `result.sort(key=lambda x: (x["pos"], x["rt"]))`. -/
def b2csLe (a b : B2CSEntry) : Prop :=
  a.pos < b.pos ∨ (a.pos = b.pos ∧ a.rt ≤ b.rt)

instance : DecidableRel b2csLe := fun a b => by
  unfold b2csLe; infer_instance

instance : IsTotal B2CSEntry b2csLe where
  total a b := by
    unfold b2csLe
    rcases lt_trichotomy a.pos b.pos with h | h | h
    · exact Or.inl (Or.inl h)
    · rcases le_total a.rt b.rt with h' | h'
      · exact Or.inl (Or.inr ⟨h, h'⟩)
      · exact Or.inr (Or.inr ⟨h.symm, h'⟩)
    · exact Or.inr (Or.inl h)

instance : IsTrans B2CSEntry b2csLe where
  trans a b c hab hbc := by
    unfold b2csLe at *
    rcases hab with h1 | ⟨h1, h1'⟩ <;> rcases hbc with h2 | ⟨h2, h2'⟩
    · exact Or.inl (h1.trans h2)
    · exact Or.inl (h2 ▸ h1)
    · exact Or.inl (h1 ▸ h2)
    · exact Or.inr ⟨h1.trans h2, h1'.trans h2'⟩

/-- `generate_b2cs`: collect the unregistered tax-invoice lines of documents
totalling at most 2.5 lakh (grouped by invoice in first-seen order), sum by
(state, rate, channel-type) in first-seen key order, and finally sort the
rows by `(pos, rt)`. -/
def generate_b2cs (lines : List GLine) : List B2CSEntry :=
  let inums := firstSeenKeys []
    ((lines.filter isUnregInvoice).map GLine.invoice_no_norm)
  let b2cs_lines := (inums.filter fun inum => decide (docTotal lines inum ≤ 250000)).flatMap
    fun inum => lines.filter fun l => isUnregInvoice l && (l.invoice_no_norm == inum)
  let keys := firstSeenKeys []
    (b2cs_lines.map fun l => (l.place_of_supply_code, l.gst_rate, b2csTyp l))
  let rows := keys.map fun (pos, rt, typ) =>
    let bucket := b2cs_lines.filter fun l =>
      decide ((l.place_of_supply_code, l.gst_rate, b2csTyp l) = (pos, rt, typ))
    { pos := pos
      rt := rt
      typ := typ
      txval := format_for_json ((bucket.map GLine.taxable_value).sum)
      iamt := format_for_json ((bucket.map GLine.igst_amount).sum)
      camt := format_for_json ((bucket.map GLine.cgst_amount).sum)
      samt := format_for_json ((bucket.map GLine.sgst_amount).sum)
      csamt := format_for_json 0 : B2CSEntry }
  List.insertionSort b2csLe rows

/-! #### Classification theorems (C2, C4, C5) -/

/-- A tax-invoice line whose GSTIN is present but only 3 characters long. -/
def shortGstinLine : GLine :=
  { gstin_uin := some "ABC", doc_type := "tax_invoice", invoice_no_raw := "X1"
    invoice_no_norm := "X1", invoice_date := none, place_of_supply_code := "27"
    taxable_value := 100, gst_rate := 18, igst_amount := 0, cgst_amount := 9
    sgst_amount := 9, is_reverse_charge := false, origin := "manual" }

/-- C2 counterexample.  A line whose counterparty tax id is present but not
15 characters (here `"ABC"`) is admitted by NONE of the five sections: the
claim's "still lands in exactly one section" fails — classification is not
exhaustive. -/
theorem C2_counterexample_short_gstin_no_section :
    truthy shortGstinLine.gstin_uin = true ∧
      (gstinStripped shortGstinLine).length ≠ 15 ∧
      shortGstinLine.doc_type = "tax_invoice" ∧
      (sectionFlags [shortGstinLine] shortGstinLine).count true = 0 := by
  decide

/-- C2 (amended).  Classification is mutually exclusive — every line is
admitted by at most one of the five sections — but not exhaustive: it is
total exactly on lines whose tax id, when present, has 15 characters and
whose document type is an invoice or a credit/debit note; such lines land in
exactly one section. -/
theorem C2_amended_mutually_exclusive_sections (lines : List GLine) (l : GLine) :
    (sectionFlags lines l).count true ≤ 1 ∧
      ((truthy l.gstin_uin = true → (gstinStripped l).length = 15) →
        l.doc_type ∈ (["tax_invoice", "credit_note", "debit_note"] : List String) →
        (sectionFlags lines l).count true = 1) := by
  have hnote_of : ∀ (_ : l.doc_type = "credit_note" ∨ l.doc_type = "debit_note"),
      (l.doc_type == "credit_note" || l.doc_type == "debit_note") = true := by
    rintro (h | h) <;> simp [h]
  by_cases ht : truthy l.gstin_uin = true
  · have h2 : inB2CL lines l = false := by simp [inB2CL, isUnregInvoice, ht]
    have h3 : inB2CS lines l = false := by simp [inB2CS, isUnregInvoice, ht]
    have h5 : inCDNUR l = false := by simp [inCDNUR, ht]
    by_cases hg : (gstinStripped l).length = 15
    · by_cases hdt : l.doc_type = "tax_invoice"
      · have h1 : inB2B l = true := by simp [inB2B, ht, hg, hdt]
        have h4 : inCDNR l = false := by simp [inCDNR, hdt]
        exact ⟨by simp [sectionFlags, h1, h2, h3, h4, h5],
          fun _ _ => by simp [sectionFlags, h1, h2, h3, h4, h5]⟩
      · have h1 : inB2B l = false := by simp [inB2B, hdt]
        by_cases hn : l.doc_type = "credit_note" ∨ l.doc_type = "debit_note"
        · have h4 : inCDNR l = true := by simp [inCDNR, ht, hg, hnote_of hn]
          exact ⟨by simp [sectionFlags, h1, h2, h3, h4, h5],
            fun _ _ => by simp [sectionFlags, h1, h2, h3, h4, h5]⟩
        · push_neg at hn
          have h4 : inCDNR l = false := by simp [inCDNR, hn.1, hn.2]
          refine ⟨by simp [sectionFlags, h1, h2, h3, h4, h5], fun _ hdom => ?_⟩
          exfalso
          simp only [List.mem_cons, List.mem_singleton, List.not_mem_nil, or_false] at hdom
          rcases hdom with h | h | h
          exacts [hdt h, hn.1 h, hn.2 h]
    · have h1 : inB2B l = false := by simp [inB2B, hg]
      have h4 : inCDNR l = false := by simp [inCDNR, hg]
      exact ⟨by simp [sectionFlags, h1, h2, h3, h4, h5],
        fun hreg _ => absurd (hreg ht) hg⟩
  · have ht' : truthy l.gstin_uin = false := by
      cases h : truthy l.gstin_uin
      · rfl
      · exact absurd h ht
    have h1 : inB2B l = false := by simp [inB2B, ht']
    have h4 : inCDNR l = false := by simp [inCDNR, ht']
    by_cases hdt : l.doc_type = "tax_invoice"
    · have h5 : inCDNUR l = false := by simp [inCDNUR, hdt]
      by_cases hbig : docTotal lines l.invoice_no_norm > 250000
      · have h2 : inB2CL lines l = true := by
          simp [inB2CL, isUnregInvoice, ht', hdt, hbig]
        have h3 : inB2CS lines l = false := by
          simp [inB2CS, isUnregInvoice, ht', hdt]
          linarith
        exact ⟨by simp [sectionFlags, h1, h2, h3, h4, h5],
          fun _ _ => by simp [sectionFlags, h1, h2, h3, h4, h5]⟩
      · have h2 : inB2CL lines l = false := by simp [inB2CL, hbig]
        have h3 : inB2CS lines l = true := by
          simp [inB2CS, isUnregInvoice, ht', hdt]
          exact le_of_not_lt hbig
        exact ⟨by simp [sectionFlags, h1, h2, h3, h4, h5],
          fun _ _ => by simp [sectionFlags, h1, h2, h3, h4, h5]⟩
    · have h2 : inB2CL lines l = false := by simp [inB2CL, isUnregInvoice, hdt]
      have h3 : inB2CS lines l = false := by simp [inB2CS, isUnregInvoice, hdt]
      by_cases hn : l.doc_type = "credit_note" ∨ l.doc_type = "debit_note"
      · have h5 : inCDNUR l = true := by simp [inCDNUR, ht', hnote_of hn]
        exact ⟨by simp [sectionFlags, h1, h2, h3, h4, h5],
          fun _ _ => by simp [sectionFlags, h1, h2, h3, h4, h5]⟩
      · push_neg at hn
        have h5 : inCDNUR l = false := by simp [inCDNUR, hn.1, hn.2]
        refine ⟨by simp [sectionFlags, h1, h2, h3, h4, h5], fun _ hdom => ?_⟩
        exfalso
        simp only [List.mem_cons, List.mem_singleton, List.not_mem_nil, or_false] at hdom
        rcases hdom with h | h | h
        exacts [hdt h, hn.1 h, hn.2 h]

/-- A registered tax-invoice line with a proper 15-character GSTIN. -/
def regLine15 : GLine :=
  { gstin_uin := some "29AAFCD5862R1Z5", doc_type := "tax_invoice"
    invoice_no_raw := "R1", invoice_no_norm := "R1", invoice_date := none
    place_of_supply_code := "29", taxable_value := 100, gst_rate := 18
    igst_amount := 18, cgst_amount := 0, sgst_amount := 0
    is_reverse_charge := false, origin := "manual" }

/-- Witness for `C2_amended_mutually_exclusive_sections`: a well-formed
registered invoice line is admitted by exactly one section. -/
theorem C2_amended_mutually_exclusive_sections_witness :
    (sectionFlags [regLine15] regLine15).count true = 1 :=
  (C2_amended_mutually_exclusive_sections [regLine15] regLine15).2
    (fun _ => by decide) (by decide)

/-- C4.  The large-vs-small unregistered-buyer decision is document-level:
two unregistered tax-invoice lines with the same normalized document number
always land in the same bucket, and the bucket is decided by comparing the
document total against 250000. -/
theorem C4_document_level_threshold (lines : List GLine) (l1 l2 : GLine)
    (h1 : isUnregInvoice l1 = true) (h2 : isUnregInvoice l2 = true)
    (hsame : l1.invoice_no_norm = l2.invoice_no_norm) :
    (inB2CL lines l1 = inB2CL lines l2 ∧ inB2CS lines l1 = inB2CS lines l2) ∧
      (inB2CL lines l1 = true ↔ docTotal lines l1.invoice_no_norm > 250000) ∧
      (inB2CS lines l1 = true ↔ docTotal lines l1.invoice_no_norm ≤ 250000) := by
  unfold inB2CL inB2CS
  rw [h1, h2, hsame]
  simp

/-- First line of the spec's two-line 300000 document. -/
def docLine1 : GLine :=
  { gstin_uin := none, doc_type := "tax_invoice", invoice_no_raw := "D1"
    invoice_no_norm := "D1", invoice_date := none, place_of_supply_code := "29"
    taxable_value := 120000, gst_rate := 18, igst_amount := 21600
    cgst_amount := 0, sgst_amount := 0, is_reverse_charge := false
    origin := "manual" }

/-- Second line of the spec's two-line 300000 document. -/
def docLine2 : GLine :=
  { docLine1 with taxable_value := 180000, igst_amount := 32400 }

/-- Witness for `C4_document_level_threshold`: two lines of one document
summing to 300000 both classify as large although one line alone is 120000. -/
theorem C4_document_level_threshold_witness :
    docTotal [docLine1, docLine2] "D1" = 300000 ∧
      docLine1.taxable_value = 120000 ∧
      inB2CL [docLine1, docLine2] docLine1 = true ∧
      inB2CL [docLine1, docLine2] docLine2 = true := by
  have h := C4_document_level_threshold [docLine1, docLine2] docLine1 docLine2
    (by decide) (by decide) rfl
  have htot : docTotal [docLine1, docLine2] "D1" = 300000 := by
    simp only [docTotal, docLine1, docLine2, isUnregInvoice, truthy,
      List.filter, List.map]
    norm_num
  have hn : docLine1.invoice_no_norm = "D1" := rfl
  have hb1 : inB2CL [docLine1, docLine2] docLine1 = true :=
    h.2.1.mpr (by rw [hn, htot]; norm_num)
  exact ⟨htot, rfl, hb1, h.1.1 ▸ hb1⟩

/-- First of two registered lines, buyer GSTIN starting with "11". -/
def b2bLineA : GLine :=
  { gstin_uin := some "11AAAAA0000A1Z5", doc_type := "tax_invoice"
    invoice_no_raw := "A1", invoice_no_norm := "A1", invoice_date := none
    place_of_supply_code := "27", taxable_value := 10, gst_rate := 18
    igst_amount := 0, cgst_amount := 1, sgst_amount := 1
    is_reverse_charge := false, origin := "manual" }

/-- Second registered line, buyer GSTIN starting with "29". -/
def b2bLineB : GLine :=
  { b2bLineA with
    gstin_uin := some "29BBBBB0000B1Z5"
    invoice_no_raw := "B1"
    invoice_no_norm := "B1" }

/-- C5 counterexample.  The itemized B2B section lists buyer groups in input
first-seen order, not sorted by the grouping key: feeding the same two lines
in the other order produces a different (reordered, non-lexically-sorted)
output, refuting byte-identical output under input permutation. -/
theorem C5_counterexample_b2b_order_depends_on_input :
    [b2bLineB, b2bLineA].Perm [b2bLineA, b2bLineB] ∧
      (generate_b2b [b2bLineB, b2bLineA]).map B2BEntry.ctin =
        ["29BBBBB0000B1Z5", "11AAAAA0000A1Z5"] ∧
      (generate_b2b [b2bLineA, b2bLineB]).map B2BEntry.ctin =
        ["11AAAAA0000A1Z5", "29BBBBB0000B1Z5"] ∧
      generate_b2b [b2bLineB, b2bLineA] ≠ generate_b2b [b2bLineA, b2bLineB] ∧
      ¬((generate_b2b [b2bLineB, b2bLineA]).map B2BEntry.ctin).Sorted (· ≤ ·) := by
  have hm1 : (generate_b2b [b2bLineB, b2bLineA]).map B2BEntry.ctin =
      ["29BBBBB0000B1Z5", "11AAAAA0000A1Z5"] := by decide
  have hm2 : (generate_b2b [b2bLineA, b2bLineB]).map B2BEntry.ctin =
      ["11AAAAA0000A1Z5", "29BBBBB0000B1Z5"] := by decide
  refine ⟨List.Perm.swap _ _ _, hm1, hm2, ?_, ?_⟩
  · intro hcon
    have hmap := congrArg (List.map B2BEntry.ctin) hcon
    rw [hm1, hm2] at hmap
    exact absurd hmap (by decide)
  · rw [hm1]
    intro hsort
    have hle : ("29BBBBB0000B1Z5" : String) ≤ "11AAAAA0000A1Z5" :=
      List.rel_of_sorted_cons hsort _ (by simp)
    rw [String.le_iff_toList_le] at hle
    exact absurd hle (by decide)

/-- C5 (amended).  Deterministic lexical ordering by the grouping key holds
for the summarized B2CS section — its rows are sorted by `(pos, rt)` for
every input — but not for the itemized sections, whose groups follow input
first-seen order (see the counterexample). -/
theorem C5_amended_b2cs_sorted_by_key (lines : List GLine) :
    (generate_b2cs lines).Sorted b2csLe := by
  unfold generate_b2cs
  exact List.sorted_insertionSort b2csLe _

/-! ### utils.py / parser_enhanced.py (jurisdiction normalization, C9) -/

/-- Helper for substring containment: does `n` occur as a prefix of some
suffix of the second list? -/
def pyInAux (n : List Char) : List Char → Bool
  | [] => n.isEmpty
  | c :: rest => List.isPrefixOf n (c :: rest) || pyInAux n rest

/-- Python `needle in hay` on strings: substring containment. -/
def pyIn (needle hay : String) : Bool := pyInAux needle.data hay.data

/-- `STATE_CODE_MAPPING` from utils.py, in insertion order. -/
def STATE_CODE_MAPPING : List (String × String) :=
  [("andhra pradesh", "37"), ("arunachal pradesh", "12"), ("assam", "18"),
   ("bihar", "10"), ("chhattisgarh", "22"), ("goa", "30"), ("gujarat", "24"),
   ("haryana", "06"), ("himachal pradesh", "02"), ("jharkhand", "20"),
   ("karnataka", "29"), ("kerala", "32"), ("madhya pradesh", "23"),
   ("maharashtra", "27"), ("manipur", "14"), ("meghalaya", "17"),
   ("mizoram", "15"), ("nagaland", "13"), ("odisha", "21"), ("punjab", "03"),
   ("rajasthan", "08"), ("sikkim", "11"), ("tamil nadu", "33"),
   ("telangana", "36"), ("tripura", "16"), ("uttar pradesh", "09"),
   ("uttarakhand", "05"), ("west bengal", "19"),
   ("andaman and nicobar islands", "35"), ("chandigarh", "04"),
   ("dadra and nagar haveli and daman and diu", "26"), ("delhi", "07"),
   ("jammu and kashmir", "01"), ("ladakh", "38"), ("lakshadweep", "31"),
   ("puducherry", "34")]

/-- `normalize_state_to_code` from utils.py: exact lookup on the
trimmed-lowercased name, then a partial (either-direction substring) match in
table order, else `None`. -/
def normalize_state_to_code (state_name : String) : Option String :=
  if state_name = "" then none
  else
    let normalized := pyLower (pyStrip state_name)
    match STATE_CODE_MAPPING.find? (fun kv => kv.1 == normalized) with
    | some kv => some kv.2
    | none =>
        match STATE_CODE_MAPPING.find?
            (fun kv => pyIn kv.1 normalized || pyIn normalized kv.1) with
        | some kv => some kv.2
        | none => none

/-- `DOCUMENT_TYPES` from canonical_fields.py, in insertion order. -/
def DOCUMENT_TYPES : List (String × String) :=
  [("invoice", "tax_invoice"), ("tax invoice", "tax_invoice"),
   ("credit note", "credit_note"), ("credit", "credit_note"),
   ("cn", "credit_note"), ("debit note", "debit_note"),
   ("debit", "debit_note"), ("dn", "debit_note"),
   ("delivery challan", "delivery_challan"), ("challan", "delivery_challan"),
   ("refund voucher", "refund_voucher"), ("refund", "refund_voucher"),
   ("receipt voucher", "receipt_voucher"), ("receipt", "receipt_voucher")]

/-- One raw (already header-mapped) row, as read by
`_parse_row_to_canonical`.  Monetary cells carry the value `parse_money`
yields for them. -/
structure RawRow where
  invoice_no : String
  taxable_value : ℚ
  gst_rate : ℚ
  place_of_supply : String
  gstin_uin : Option String
  invoice_type : String
  invoice_date : Option String
  hsn_code : Option String
deriving DecidableEq, Repr

/-- `_detect_document_type`: first `DOCUMENT_TYPES` key contained in the
lowercased `invoice_type` cell wins; otherwise the file type for note files;
otherwise a tax invoice. -/
def detect_document_type (row : RawRow) (file_type : String) : String :=
  let inv_type := pyLower (pyStrip row.invoice_type)
  match DOCUMENT_TYPES.find? (fun kv => pyIn kv.1 inv_type) with
  | some kv => kv.2
  | none =>
      if file_type = "credit_note" then "credit_note"
      else if file_type = "debit_note" then "debit_note"
      else "tax_invoice"

/-- `_detect_gstr_section` of parser_enhanced.py. -/
def detect_gstr_section (row : RawRow) : Option String :=
  let gstin := row.gstin_uin.getD ""
  if truthy row.gstin_uin && ((pyStrip gstin).length == 15) then some "b2b"
  else if !truthy row.gstin_uin && decide (row.taxable_value > 250000) then some "b2cl"
  else if !truthy row.gstin_uin then some "b2cs"
  else none

/-- `_parse_date` of parser_enhanced.py (string dates pass through
stripped; empty/missing dates become `None`). -/
def parse_date : Option String → Option String
  | none => none
  | some s => if s = "" then none else some (pyStrip s)

/-- `CanonicalInvoiceLine` (models_canonical.py) as populated by
`_parse_row_to_canonical` — without the random id / timestamp bookkeeping.
Its provenance fields are `origin` and the verbatim `raw_data` passthrough;
there is no field marking an inferred jurisdiction. -/
structure CanonicalInvoiceLine where
  upload_id : String
  invoice_no_raw : String
  invoice_no_norm : String
  doc_type : String
  invoice_date : Option String
  gstin_uin : Option String
  place_of_supply_state : String
  place_of_supply_code : String
  taxable_value : ℚ
  gst_rate : ℚ
  computed_tax : TaxSplit
  is_return : Bool
  is_intra_state : Bool
  origin : String
  gstr_section : Option String
  file_type : String
  hsn_code : Option String
  raw_data : RawRow
deriving DecidableEq, Repr

/-- `_parse_row_to_canonical` of parser_enhanced.py: reject rows without an
invoice number; detect document type and return direction; resolve the
supply jurisdiction, defaulting to the seller's own state code when the text
does not resolve; compute the tax split; and build the canonical line. -/
def parse_row_to_canonical (seller_state_code upload_id file_type : String)
    (row : RawRow) : Option CanonicalInvoiceLine :=
  let invoice_no_raw := pyStrip row.invoice_no
  if invoice_no_raw = "" then none
  else
    let invoice_no_norm := pyStrip (pyUpper invoice_no_raw)
    let doc_type := detect_document_type row file_type
    let tv0 := row.taxable_value
    let is_return := (file_type == "tcs_sales_return") || decide (tv0 < 0)
    let tv := if is_return && decide (tv0 > 0) then -tv0 else tv0
    let place_of_supply_state := row.place_of_supply
    let place_of_supply_code :=
      (normalize_state_to_code place_of_supply_state).getD seller_state_code
    let tax_result := compute_tax tv row.gst_rate seller_state_code place_of_supply_code
    some
      { upload_id := upload_id
        invoice_no_raw := invoice_no_raw
        invoice_no_norm := invoice_no_norm
        doc_type := doc_type
        invoice_date := parse_date row.invoice_date
        gstin_uin := row.gstin_uin
        place_of_supply_state := place_of_supply_state
        place_of_supply_code := place_of_supply_code
        taxable_value := tv
        gst_rate := row.gst_rate
        computed_tax := tax_result
        is_return := is_return
        is_intra_state := tax_result.is_intra_state
        origin := if pyIn "meesho" (pyLower file_type) then "meesho" else "manual"
        gstr_section := detect_gstr_section row
        file_type := file_type
        hsn_code := row.hsn_code
        raw_data := row }

/-- A raw row whose supply-jurisdiction text resolves against no table
entry. -/
def rowUnresolvable : RawRow :=
  { invoice_no := "INV9"
    taxable_value := 100
    gst_rate := 18
    place_of_supply := "ATLANTIS"
    gstin_uin := none
    invoice_type := ""
    invoice_date := none
    hsn_code := none }

/-- The same row with a resolvable supply-jurisdiction text that yields the
seller's own code. -/
def rowResolvable : RawRow := { rowUnresolvable with place_of_supply := "Maharashtra" }

/-- C9 counterexample.  The unresolvable row does get the filer's own code
as its supply jurisdiction, but NO provenance flag is recorded: the line
built from the unresolvable row is identical to the line built from a
resolved row except for the verbatim copied raw inputs
(`place_of_supply_state` and `raw_data`).  Since `CanonicalInvoiceLine`
carries every field `_parse_row_to_canonical` writes, no field distinguishes
"defaulted" from "resolved", refuting the flag half of the claim. -/
theorem C9_counterexample_default_not_flagged :
    normalize_state_to_code "ATLANTIS" = none ∧
      normalize_state_to_code "Maharashtra" = some "27" ∧
      (parse_row_to_canonical "27" "U1" "tcs_sales" rowUnresolvable).map
        (fun l => l.place_of_supply_code) = some "27" ∧
      parse_row_to_canonical "27" "U1" "tcs_sales" rowUnresolvable =
        (parse_row_to_canonical "27" "U1" "tcs_sales" rowResolvable).map
          (fun l => { l with place_of_supply_state := "ATLANTIS"
                             raw_data := rowUnresolvable }) :=
  ⟨by decide, by decide, by decide, by rfl⟩

/-- C9 (amended).  For every raw row whose supply-jurisdiction text does not
resolve, normalization assigns the filer's own jurisdiction code; the line's
provenance carries only the verbatim raw row (no inferred-by-default
flag). -/
theorem C9_amended_unresolved_defaults_to_seller
    (seller_state_code upload_id file_type : String) (row : RawRow)
    (hinv : pyStrip row.invoice_no ≠ "")
    (hunres : normalize_state_to_code row.place_of_supply = none) :
    (parse_row_to_canonical seller_state_code upload_id file_type row).map
        (fun l => l.place_of_supply_code) = some seller_state_code ∧
      (parse_row_to_canonical seller_state_code upload_id file_type row).map
        (fun l => l.raw_data) = some row := by
  unfold parse_row_to_canonical
  rw [if_neg hinv]
  simp [hunres]

/-- Witness for `C9_amended_unresolved_defaults_to_seller` at the concrete
unresolvable row. -/
theorem C9_amended_unresolved_defaults_witness :
    (parse_row_to_canonical "27" "U1" "tcs_sales" rowUnresolvable).map
        (fun l => l.place_of_supply_code) = some "27" ∧
      (parse_row_to_canonical "27" "U1" "tcs_sales" rowUnresolvable).map
        (fun l => l.raw_data) = some rowUnresolvable :=
  C9_amended_unresolved_defaults_to_seller "27" "U1" "tcs_sales" rowUnresolvable
    (by decide) (by decide)

/-! ### gstr1_gemini_complete_generator.py (C6) -/

/-- `str.startswith`. -/
def pyStartsWith (pre s : String) : Bool := List.isPrefixOf pre.data s.data

/-- `str(x).zfill(2)` on a state-code string. -/
def zfill2 (s : String) : String := String.mk (List.replicate (2 - s.length) '0' ++ s.data)

/-- `GSTR1OfficialSchemas.format_decimal`: round to two decimal places.
(Modelled with decimal half-up rounding; the float tie cases do not arise in
the statements below.) -/
def sch_format_decimal (v : ℚ) : ℚ := round_decimal v

/-- `GSTR1OfficialSchemas.format_date` on the string dates in scope:
`YYYY-MM-DD` is reordered to `DD-MM-YYYY`, other strings pass through,
missing dates become `""`. -/
def sch_format_date (d : Option String) : String :=
  match d with
  | none => ""
  | some s =>
      if s = "" then ""
      else
        match s.splitOn "-" with
        | [y, m, dd] => if y.length = 4 then dd ++ "-" ++ m ++ "-" ++ y else s
        | _ => s

/-- One invoice dict consumed by `GeminiGSTR1Generator`. -/
structure GmInvoice where
  invoice_no_raw : String
  invoice_date : Option String
  gstin_uin : Option String
  taxable_value : ℚ
  total_amount : ℚ
  gst_rate : ℚ
  doc_type : String
  is_credit_note : Bool
  is_debit_note : Bool
  customer_state_code : Option String
  igst_amount : ℚ
  cgst_amount : ℚ
  sgst_amount : ℚ
deriving DecidableEq, Repr

/-- The JSON object `_gemini_classify_invoice` returns (whether produced by
the Gemini model or by the fallback). -/
structure GmClassification where
  sec : String
  confidence : String
  reason : String
  supply_type : String
  invoice_type : String
  reverse_charge : String
deriving DecidableEq, Repr

/-- `_fallback_classify_invoice`: the deterministic rule-based
classification used when Gemini is unavailable or fails. -/
def fallback_classify (seller : String) (inv : GmInvoice) : GmClassification :=
  let gstin := pyStrip (inv.gstin_uin.getD "")
  let total_value := inv.total_amount
  let customer_state := inv.customer_state_code.getD seller
  let supply_type := if customer_state == seller then "INTRA" else "INTER"
  let sec :=
    if inv.is_credit_note || inv.is_debit_note then
      if (gstin.length == 15) && !pyStartsWith "URP" gstin then "CDNR" else "CDNUR"
    else if pyStartsWith "URP" gstin || pyIn "export" (pyLower inv.doc_type) then "EXP"
    else if (gstin.length == 15) && !pyStartsWith "URP" gstin then "B2B"
    else if total_value > 250000 then "B2CL"
    else "B2CS"
  { sec := sec, confidence := "medium", reason := "Rule-based classification"
    supply_type := supply_type, invoice_type := "R", reverse_charge := "N" }

/-- `_gemini_classify_invoice`, with the generative model as an oracle: a
`some` response is the parsed JSON Gemini returned; `none` covers both
"Gemini not configured" and "call failed", in which cases the fallback is
used. -/
def gemini_classify (oracle : GmInvoice → Option GmClassification)
    (seller : String) (inv : GmInvoice) : GmClassification :=
  (oracle inv).getD (fallback_classify seller inv)

/-- `classified_invoices[sec]`: the invoices whose (oracle or fallback)
classification names section `sec`, in input order. -/
def classifiedInvoices (oracle : GmInvoice → Option GmClassification)
    (seller : String) (lines : List GmInvoice) (sec : String) : List GmInvoice :=
  lines.filter fun inv => (gemini_classify oracle seller inv).sec == sec

/-- `b2b_item_detail` of the official schemas (`num` is always 1 here). -/
structure GmItem where
  num : ℕ
  txval : ℚ
  rt : ℚ
  iamt : ℚ
  camt : ℚ
  samt : ℚ
  csamt : ℚ
deriving DecidableEq, Repr

/-- An invoice item of the Gemini generator's B2B/B2CL sections. -/
structure GmInvoiceItem where
  inum : String
  idt : String
  val : ℚ
  pos : String
  rchrg : String
  inv_typ : String
  items : List GmItem
deriving DecidableEq, Repr

/-- A `ctin`-keyed B2B group. -/
structure GmB2BEntry where
  ctin : String
  inv : List GmInvoiceItem
deriving DecidableEq, Repr

/-- A `pos`-keyed B2CL group. -/
structure GmB2CLEntry where
  pos : String
  inv : List GmInvoiceItem
deriving DecidableEq, Repr

/-- One aggregated B2CS row of the Gemini generator. -/
structure GmB2CSEntry where
  sply_ty : String
  pos : String
  typ : String
  txval : ℚ
  rt : ℚ
  iamt : ℚ
  camt : ℚ
  samt : ℚ
deriving DecidableEq, Repr

/-- The single rate item built for an invoice by the Gemini generator. -/
def gmItemOf (inv : GmInvoice) : GmItem :=
  { num := 1
    txval := sch_format_decimal inv.taxable_value
    rt := sch_format_decimal inv.gst_rate
    iamt := sch_format_decimal inv.igst_amount
    camt := sch_format_decimal inv.cgst_amount
    samt := sch_format_decimal inv.sgst_amount
    csamt := 0 }

/-- `_generate_b2b` of the Gemini generator: group the section's invoices by
15-character GSTIN and emit one entry per buyer. -/
def gm_generate_b2b (oracle : GmInvoice → Option GmClassification)
    (seller : String) (invoices : List GmInvoice) : List GmB2BEntry :=
  let eligible := invoices.filter fun inv =>
    (pyStrip (inv.gstin_uin.getD "")).length == 15
  (dictGroups (fun inv => pyStrip (inv.gstin_uin.getD "")) eligible).map
    fun (ctin, inv_list) =>
      { ctin := ctin
        inv := inv_list.map fun inv =>
          { inum := inv.invoice_no_raw
            idt := sch_format_date inv.invoice_date
            val := sch_format_decimal inv.total_amount
            pos := zfill2 (inv.customer_state_code.getD seller)
            rchrg := (gemini_classify oracle seller inv).reverse_charge
            inv_typ := (gemini_classify oracle seller inv).invoice_type
            items := [gmItemOf inv] } }

/-- `_generate_b2cl` of the Gemini generator: group by place of supply. -/
def gm_generate_b2cl (seller : String) (invoices : List GmInvoice) :
    List GmB2CLEntry :=
  (dictGroups (fun inv => zfill2 (inv.customer_state_code.getD seller)) invoices).map
    fun (pos, inv_list) =>
      { pos := pos
        inv := inv_list.map fun inv =>
          { inum := inv.invoice_no_raw
            idt := sch_format_date inv.invoice_date
            val := sch_format_decimal inv.total_amount
            pos := ""
            rchrg := ""
            inv_typ := ""
            items := [gmItemOf inv] } }

/-- `_generate_b2cs` of the Gemini generator: aggregate by (supply type,
place of supply, rate), keys in first-seen order (this variant does not
sort). -/
def gm_generate_b2cs (oracle : GmInvoice → Option GmClassification)
    (seller : String) (invoices : List GmInvoice) : List GmB2CSEntry :=
  let keyOf := fun inv : GmInvoice =>
    ((gemini_classify oracle seller inv).supply_type,
      zfill2 (inv.customer_state_code.getD seller), inv.gst_rate)
  (firstSeenKeys [] (invoices.map keyOf)).map fun (sply_ty, pos, rt) =>
    let bucket := invoices.filter fun inv => decide (keyOf inv = (sply_ty, pos, rt))
    { sply_ty := sply_ty
      pos := pos
      typ := "OE"
      txval := sch_format_decimal ((bucket.map GmInvoice.taxable_value).sum)
      rt := rt
      iamt := sch_format_decimal ((bucket.map GmInvoice.igst_amount).sum)
      camt := sch_format_decimal ((bucket.map GmInvoice.cgst_amount).sum)
      samt := sch_format_decimal ((bucket.map GmInvoice.sgst_amount).sum) }

/-- The classification-dispatched numeric sections of the Gemini generator's
filing.  (The HSN and document-range sections do not depend on the
classification and are independent of the oracle.) -/
structure GmFiling where
  b2b : List GmB2BEntry
  b2cl : List GmB2CLEntry
  b2cs : List GmB2CSEntry
deriving DecidableEq, Repr

/-- `generate_complete_gstr1` of the Gemini generator: every invoice is
classified by the (oracle-backed) `_gemini_classify_invoice` and the
section generators receive the buckets. -/
def gm_generate_complete (oracle : GmInvoice → Option GmClassification)
    (seller : String) (lines : List GmInvoice) : GmFiling :=
  { b2b := gm_generate_b2b oracle seller (classifiedInvoices oracle seller lines "B2B")
    b2cl := gm_generate_b2cl seller (classifiedInvoices oracle seller lines "B2CL")
    b2cs := gm_generate_b2cs oracle seller (classifiedInvoices oracle seller lines "B2CS") }

/-! ### gstr1_complete_generator.py: the advisory hooks are pass-through -/

/-- `_gemini_enhance_b2c_data` of `CompleteGSTR1Generator`: returns the
lines unchanged. -/
def gemini_enhance_b2c_data (lines : List GLine) : List GLine := lines

/-- One `pos`-keyed B2CL group of `CompleteGSTR1Generator.generate_b2cl`. -/
structure CgB2CLInvoice where
  inum : String
  idt : String
  val : ℚ
  itms : List RateItem
deriving DecidableEq, Repr

structure CgB2CLEntry where
  pos : String
  inv : List CgB2CLInvoice
deriving DecidableEq, Repr

/-- The filter of `CompleteGSTR1Generator.generate_b2cl`: missing or
shorter-than-15-character GSTIN on a tax invoice. -/
def cgUnregOrShort (l : GLine) : Bool :=
  (!truthy l.gstin_uin || decide ((gstinStripped l).length < 15)) &&
    (l.doc_type == "tax_invoice")

/-- `CompleteGSTR1Generator.generate_b2cl(invoice_lines, use_gemini)`:
document-level 2.5-lakh filter, optional (identity) Gemini enhancement,
then grouping by state and invoice. -/
def cg_generate_b2cl (lines : List GLine) (use_gemini : Bool) : List CgB2CLEntry :=
  let inums := firstSeenKeys [] ((lines.filter cgUnregOrShort).map GLine.invoice_no_norm)
  let groupOf := fun inum => lines.filter fun l =>
    cgUnregOrShort l && (l.invoice_no_norm == inum)
  let b2cl_lines := (inums.filter fun inum =>
    decide (((groupOf inum).map GLine.taxable_value).sum > 250000)).flatMap groupOf
  if b2cl_lines.isEmpty then []
  else
    let b2cl_lines := if use_gemini && !b2cl_lines.isEmpty
      then gemini_enhance_b2c_data b2cl_lines else b2cl_lines
    (dictGroups GLine.place_of_supply_code b2cl_lines).map fun (pos, ls) =>
      { pos := pos
        inv := (dictGroups GLine.invoice_no_norm ls).map fun (_, inv_lines) =>
          { inum := ((inv_lines.head?.map GLine.invoice_no_raw).getD "")
            idt := format_date ((inv_lines.head?.map GLine.invoice_date).getD none)
            val := format_for_json ((inv_lines.map GLine.taxable_value).sum)
            itms := aggregate_by_rate inv_lines } }

/-- A registered tax invoice fed to the Gemini generator; the fallback
classifies it B2B. -/
def gmInv0 : GmInvoice :=
  { invoice_no_raw := "G1"
    invoice_date := none
    gstin_uin := some "29AAFCD5862R1Z5"
    taxable_value := 10000
    total_amount := 11800
    gst_rate := 18
    doc_type := "invoice"
    is_credit_note := false
    is_debit_note := false
    customer_state_code := some "29"
    igst_amount := 1800
    cgst_amount := 0
    sgst_amount := 0 }

/-- The advisory never answering (unavailable / every call fails). -/
def oracleNone : GmInvoice → Option GmClassification := fun _ => none

/-- An advisory response that (mis)classifies every invoice as B2CS. -/
def oracleMisclass : GmInvoice → Option GmClassification := fun _ =>
  some { sec := "B2CS", confidence := "high", reason := "model says so"
         supply_type := "INTRA", invoice_type := "R", reverse_charge := "N" }

/-- C6 counterexample.  The Gemini generator puts the advisory on the
critical path: for the same single registered invoice, the run without an
advisory response reports it under `b2b`, while a run in which the advisory
answers "B2CS" drops it from `b2b` and books its amounts under `b2cs` — the
assembled filing differs, so advisory output does change section membership
and numeric results. -/
theorem C6_counterexample_advisory_changes_output :
    (gm_generate_complete oracleNone "29" [gmInv0]).b2b.map GmB2BEntry.ctin =
        ["29AAFCD5862R1Z5"] ∧
      (gm_generate_complete oracleNone "29" [gmInv0]).b2cs.length = 0 ∧
      (gm_generate_complete oracleMisclass "29" [gmInv0]).b2b.length = 0 ∧
      (gm_generate_complete oracleMisclass "29" [gmInv0]).b2cs.length = 1 ∧
      gm_generate_complete oracleNone "29" [gmInv0] ≠
        gm_generate_complete oracleMisclass "29" [gmInv0] := by
  refine ⟨by decide, by decide, by decide, by decide, ?_⟩
  intro hcon
  have hlen := congrArg (fun f : GmFiling => f.b2b.length) hcon
  simp only at hlen
  rw [show (gm_generate_complete oracleNone "29" [gmInv0]).b2b.length = 1 by decide,
    show (gm_generate_complete oracleMisclass "29" [gmInv0]).b2b.length = 0 by decide]
    at hlen
  cases hlen

/-- C6 (amended).  When the advisory is not on the answer path the numeric
output is unchanged: in `CompleteGSTR1Generator` the advisory hooks return
the lines unchanged, so `generate_b2cl` output is identical with the
advisory enabled or disabled; and in the Gemini generator any advisory that
never answers (unavailable or failing) produces the same filing as the
disabled advisory.  A successful advisory response, however, decides section
membership (see the counterexample). -/
theorem C6_amended_advisory_invariance (lines : List GLine)
    (glines : List GmInvoice) (seller : String)
    (oracle : GmInvoice → Option GmClassification)
    (hfail : ∀ inv, oracle inv = none) :
    cg_generate_b2cl lines true = cg_generate_b2cl lines false ∧
      gm_generate_complete oracle seller glines =
        gm_generate_complete (fun _ => none) seller glines := by
  constructor
  · unfold cg_generate_b2cl
    simp [gemini_enhance_b2c_data]
  · unfold gm_generate_complete gm_generate_b2b gm_generate_b2cl gm_generate_b2cs
      classifiedInvoices gemini_classify
    simp only [hfail]

/-- Witness for `C6_amended_advisory_invariance` with a concrete line set
and the never-answering advisory. -/
theorem C6_amended_advisory_invariance_witness :
    cg_generate_b2cl [docLine1, docLine2] true = cg_generate_b2cl [docLine1, docLine2] false ∧
      gm_generate_complete oracleNone "29" [gmInv0] =
        gm_generate_complete (fun _ => none) "29" [gmInv0] :=
  C6_amended_advisory_invariance [docLine1, docLine2] [gmInv0] "29" oracleNone
    (fun _ => rfl)

/-! ### difflib.SequenceMatcher (used by auto_mapper.fuzzy_match)

`SequenceMatcher(None, a, b).ratio()` is `2*M/T` where `M` is the total size
of the matching blocks and `T = len(a) + len(b)`.  The matching blocks are
found by recursively taking the longest block `a[i:i+k] == b[j:j+k]`
(earliest `i`, then earliest `j`, on ties) and recursing on both sides.
With `None` junk and the short strings in scope, no junk/autojunk heuristic
applies. -/

/-- Length of the longest common prefix of two character lists. -/
def commonPrefixLen : List Char → List Char → ℕ
  | a :: as, b :: bs => if a = b then commonPrefixLen as bs + 1 else 0
  | _, _ => 0

lemma commonPrefixLen_le_left : ∀ (x y : List Char), commonPrefixLen x y ≤ x.length
  | [], _ => by simp [commonPrefixLen]
  | _ :: _, [] => by simp [commonPrefixLen]
  | a :: as, b :: bs => by
      unfold commonPrefixLen
      split
      · have := commonPrefixLen_le_left as bs
        simpa using this
      · simp

lemma commonPrefixLen_le_right : ∀ (x y : List Char), commonPrefixLen x y ≤ y.length
  | [], _ => by simp [commonPrefixLen]
  | _ :: _, [] => by simp [commonPrefixLen]
  | a :: as, b :: bs => by
      unfold commonPrefixLen
      split
      · have := commonPrefixLen_le_right as bs
        simpa using this
      · simp

lemma commonPrefixLen_take_eq : ∀ (x y : List Char),
    x.take (commonPrefixLen x y) = y.take (commonPrefixLen x y)
  | [], y => by simp [commonPrefixLen]
  | a :: as, [] => by simp [commonPrefixLen]
  | a :: as, b :: bs => by
      unfold commonPrefixLen
      split
      · next h => simp [h, commonPrefixLen_take_eq as bs]
      · simp

/-- `find_longest_match` over the whole strings: the longest matching block
`(i, j, k)`, earliest in `a` then in `b` on ties. -/
def bestBlock (a b : List Char) : ℕ × ℕ × ℕ :=
  ((List.range (a.length + 1)).flatMap fun i =>
    (List.range (b.length + 1)).map fun j =>
      (i, j, commonPrefixLen (a.drop i) (b.drop j))).foldl
    (fun best c => if c.2.2 > best.2.2 then c else best) (0, 0, 0)

lemma foldl_best_mem_or_init {α : Type} (g : α → ℕ) :
    ∀ (l : List α) (init : α),
      (l.foldl (fun best c => if g c > g best then c else best) init) = init ∨
        (l.foldl (fun best c => if g c > g best then c else best) init) ∈ l
  | [], init => Or.inl rfl
  | c :: t, init => by
      simp only [List.foldl_cons]
      rcases foldl_best_mem_or_init g t (if g c > g init then c else init) with h | h
      · rw [h]
        split
        · exact Or.inr (by simp)
        · exact Or.inl rfl
      · exact Or.inr (List.mem_cons_of_mem _ h)

lemma foldl_best_ge {α : Type} (g : α → ℕ) :
    ∀ (l : List α) (init : α),
      g init ≤ g (l.foldl (fun best c => if g c > g best then c else best) init) ∧
        ∀ c ∈ l, g c ≤ g (l.foldl (fun best c => if g c > g best then c else best) init)
  | [], init => ⟨le_rfl, by simp⟩
  | c :: t, init => by
      simp only [List.foldl_cons]
      obtain ⟨h1, h2⟩ := foldl_best_ge g t (if g c > g init then c else init)
      have hinit : g init ≤ g (if g c > g init then c else init) := by
        split <;> omega
      have hc : g c ≤ g (if g c > g init then c else init) := by
        split <;> omega
      exact ⟨hinit.trans h1, fun d hd => by
        rcases List.mem_cons.mp hd with rfl | hd'
        · exact hc.trans h1
        · exact h2 d hd'⟩

/-- The block returned by `bestBlock` really is a common block within
bounds, and it is the longest one. -/
lemma bestBlock_spec (a b : List Char) :
    (bestBlock a b).2.2 =
        commonPrefixLen (a.drop (bestBlock a b).1) (b.drop (bestBlock a b).2.1) ∧
      (bestBlock a b).1 ≤ a.length ∧ (bestBlock a b).2.1 ≤ b.length := by
  unfold bestBlock
  set cands := (List.range (a.length + 1)).flatMap fun i =>
    (List.range (b.length + 1)).map fun j =>
      (i, j, commonPrefixLen (a.drop i) (b.drop j)) with hcands
  have hmem : ∀ c ∈ cands, c.2.2 = commonPrefixLen (a.drop c.1) (b.drop c.2.1) ∧
      c.1 ≤ a.length ∧ c.2.1 ≤ b.length := by
    intro c hc
    rw [hcands] at hc
    simp only [List.mem_flatMap, List.mem_map, List.mem_range] at hc
    obtain ⟨i, hi, j, hj, rfl⟩ := hc
    refine ⟨rfl, ?_, ?_⟩ <;> dsimp only <;> omega
  rcases foldl_best_mem_or_init (fun c : ℕ × ℕ × ℕ => c.2.2) cands (0, 0, 0) with h | h
  · rw [h]
    refine ⟨?_, by simp, by simp⟩
    have h00 : ((0, 0, commonPrefixLen a b) : ℕ × ℕ × ℕ) ∈ cands := by
      rw [hcands]
      simp only [List.mem_flatMap, List.mem_map, List.mem_range]
      exact ⟨0, by omega, 0, by omega, by simp⟩
    have hge := (foldl_best_ge (fun c : ℕ × ℕ × ℕ => c.2.2) cands (0, 0, 0)).2 _ h00
    rw [h] at hge
    dsimp only at hge ⊢
    rw [List.drop_zero, List.drop_zero]
    omega
  · exact hmem _ h

/-- Total size of the matching blocks of `SequenceMatcher` (the sum of block
sizes from `get_matching_blocks`). -/
def matchSum (a b : List Char) : ℕ :=
  if _h : (bestBlock a b).2.2 = 0 then 0
  else
    matchSum (a.take (bestBlock a b).1) (b.take (bestBlock a b).2.1) +
      (bestBlock a b).2.2 +
      matchSum (a.drop ((bestBlock a b).1 + (bestBlock a b).2.2))
        (b.drop ((bestBlock a b).2.1 + (bestBlock a b).2.2))
termination_by a.length + b.length
decreasing_by
  all_goals
    have hk1 := commonPrefixLen_le_left (a.drop (bestBlock a b).1) (b.drop (bestBlock a b).2.1)
    have hk2 := commonPrefixLen_le_right (a.drop (bestBlock a b).1) (b.drop (bestBlock a b).2.1)
    rw [List.length_drop] at hk1 hk2
    obtain ⟨hk, hi, hj⟩ := bestBlock_spec a b
    simp only [List.length_take, List.length_drop]
    omega

lemma matchSum_le_aux : ∀ (n : ℕ), ∀ (a b : List Char), a.length + b.length = n →
    matchSum a b ≤ min a.length b.length := by
  intro n
  induction n using Nat.strong_induction_on with
  | _ n ih =>
    intro a b hn
    rw [matchSum]
    split
    · simp
    · next hne =>
        obtain ⟨hk, hi, hj⟩ := bestBlock_spec a b
        have hk1 := commonPrefixLen_le_left (a.drop (bestBlock a b).1)
          (b.drop (bestBlock a b).2.1)
        have hk2 := commonPrefixLen_le_right (a.drop (bestBlock a b).1)
          (b.drop (bestBlock a b).2.1)
        rw [List.length_drop] at hk1 hk2
        have hleft := ih ((a.take (bestBlock a b).1).length +
            (b.take (bestBlock a b).2.1).length)
          (by simp only [List.length_take]; omega) _ _ rfl
        have hright := ih ((a.drop ((bestBlock a b).1 + (bestBlock a b).2.2)).length +
            (b.drop ((bestBlock a b).2.1 + (bestBlock a b).2.2)).length)
          (by simp only [List.length_drop]; omega) _ _ rfl
        simp only [List.length_take, List.length_drop] at hleft hright
        omega

/-- The total matched size is at most the length of either string. -/
lemma matchSum_le (a b : List Char) : matchSum a b ≤ min a.length b.length :=
  matchSum_le_aux (a.length + b.length) a b rfl

lemma matchSum_eq_aux : ∀ (n : ℕ), ∀ (a b : List Char), a.length + b.length = n →
    2 * matchSum a b = a.length + b.length → a = b := by
  intro n
  induction n using Nat.strong_induction_on with
  | _ n ih =>
    intro a b hn hdouble
    rw [matchSum] at hdouble
    revert hdouble
    split
    · intro hdouble
      have ha : a = [] := List.length_eq_zero.mp (by omega)
      have hb : b = [] := List.length_eq_zero.mp (by omega)
      rw [ha, hb]
    · next hne =>
        intro hdouble
        obtain ⟨hk, hi, hj⟩ := bestBlock_spec a b
        have hk1 := commonPrefixLen_le_left (a.drop (bestBlock a b).1)
          (b.drop (bestBlock a b).2.1)
        have hk2 := commonPrefixLen_le_right (a.drop (bestBlock a b).1)
          (b.drop (bestBlock a b).2.1)
        rw [List.length_drop] at hk1 hk2
        have hleftle := matchSum_le (a.take (bestBlock a b).1) (b.take (bestBlock a b).2.1)
        have hrightle := matchSum_le (a.drop ((bestBlock a b).1 + (bestBlock a b).2.2))
          (b.drop ((bestBlock a b).2.1 + (bestBlock a b).2.2))
        simp only [List.length_take, List.length_drop] at hleftle hrightle
        have hleft : a.take (bestBlock a b).1 = b.take (bestBlock a b).2.1 := by
          apply ih ((a.take (bestBlock a b).1).length + (b.take (bestBlock a b).2.1).length)
            (by simp only [List.length_take]; omega) _ _ rfl
          simp only [List.length_take]
          omega
        have hright : a.drop ((bestBlock a b).1 + (bestBlock a b).2.2) =
            b.drop ((bestBlock a b).2.1 + (bestBlock a b).2.2) := by
          apply ih ((a.drop ((bestBlock a b).1 + (bestBlock a b).2.2)).length +
              (b.drop ((bestBlock a b).2.1 + (bestBlock a b).2.2)).length)
            (by simp only [List.length_drop]; omega) _ _ rfl
          simp only [List.length_drop]
          omega
        have hmid : (a.drop (bestBlock a b).1).take (bestBlock a b).2.2 =
            (b.drop (bestBlock a b).2.1).take (bestBlock a b).2.2 := by
          rw [hk]
          exact commonPrefixLen_take_eq _ _
        have hsplit_a : a = a.take (bestBlock a b).1 ++
            ((a.drop (bestBlock a b).1).take (bestBlock a b).2.2 ++
              (a.drop (bestBlock a b).1).drop (bestBlock a b).2.2) := by
          rw [List.take_append_drop, List.take_append_drop]
        have hsplit_b : b = b.take (bestBlock a b).2.1 ++
            ((b.drop (bestBlock a b).2.1).take (bestBlock a b).2.2 ++
              (b.drop (bestBlock a b).2.1).drop (bestBlock a b).2.2) := by
          rw [List.take_append_drop, List.take_append_drop]
        have hdropa : (a.drop (bestBlock a b).1).drop (bestBlock a b).2.2 =
            a.drop ((bestBlock a b).1 + (bestBlock a b).2.2) := by
          rw [List.drop_drop, Nat.add_comm]
        have hdropb : (b.drop (bestBlock a b).2.1).drop (bestBlock a b).2.2 =
            b.drop ((bestBlock a b).2.1 + (bestBlock a b).2.2) := by
          rw [List.drop_drop, Nat.add_comm]
        conv_lhs => rw [hsplit_a]
        conv_rhs => rw [hsplit_b]
        rw [hleft, hmid, hdropa, hdropb, hright]

/-- If the matched size is the whole of both strings, they are equal. -/
lemma matchSum_eq_of_double (a b : List Char)
    (h : 2 * matchSum a b = a.length + b.length) : a = b :=
  matchSum_eq_aux (a.length + b.length) a b rfl h

/-- `SequenceMatcher.ratio()`: `2 * M / T`, and 1 when both strings are
empty. -/
def smRatio (a b : List Char) : ℚ :=
  if a.length + b.length = 0 then 1
  else 2 * (matchSum a b : ℚ) / ((a.length : ℚ) + (b.length : ℚ))

lemma smRatio_nonneg (a b : List Char) : 0 ≤ smRatio a b := by
  unfold smRatio
  split
  · norm_num
  · next h =>
      apply div_nonneg (by positivity)
      have : 1 ≤ a.length + b.length := by omega
      have : (1 : ℚ) ≤ (a.length : ℚ) + b.length := by exact_mod_cast this
      linarith

lemma smRatio_le_one (a b : List Char) : smRatio a b ≤ 1 := by
  unfold smRatio
  split
  · exact le_refl 1
  · next h =>
      have hm := matchSum_le a b
      have hpos : (0 : ℚ) < (a.length : ℚ) + b.length := by
        have : 1 ≤ a.length + b.length := by omega
        have h1 : (1 : ℚ) ≤ (a.length : ℚ) + b.length := by exact_mod_cast this
        linarith
      rw [div_le_one hpos]
      have : 2 * matchSum a b ≤ a.length + b.length := by omega
      exact_mod_cast this

lemma smRatio_eq_one {a b : List Char} (h : smRatio a b = 1) : a = b := by
  unfold smRatio at h
  revert h
  split
  · next hz =>
      intro _
      have ha : a = [] := List.length_eq_zero.mp (by omega)
      have hb : b = [] := List.length_eq_zero.mp (by omega)
      rw [ha, hb]
  · next hz =>
      intro h
      have hpos : (0 : ℚ) < (a.length : ℚ) + b.length := by
        have h0 : 1 ≤ a.length + b.length := by omega
        have h1 : (1 : ℚ) ≤ (a.length : ℚ) + b.length := by exact_mod_cast h0
        linarith
      rw [div_eq_one_iff_eq (ne_of_gt hpos)] at h
      apply matchSum_eq_of_double
      exact_mod_cast h

/-! ### auto_mapper.py (C8) -/

/-- `re.sub(r'\s+', ' ', s)`: collapse each maximal whitespace run to one
space.  `prevWs` records whether the previous character was whitespace. -/
def collapseWsAux (prevWs : Bool) : List Char → List Char
  | [] => []
  | c :: cs =>
      if c.isWhitespace then
        if prevWs then collapseWsAux true cs else ' ' :: collapseWsAux true cs
      else c :: collapseWsAux false cs

/-- The bracket/quote characters removed by `normalize_header`
(`( ) [ ] \x7b \x7d " ' °`). -/
def isHeaderPunct (c : Char) : Bool :=
  c = '(' || c = ')' || c = '[' || c = ']' || c = Char.ofNat 123 ||
    c = Char.ofNat 125 || c = Char.ofNat 34 || c = Char.ofNat 39 || c = '°'

/-- `HeaderMatcher.normalize_header`: lowercase and trim, collapse
whitespace runs, drop bracket/quote punctuation. -/
def normalize_header (s : String) : String :=
  if s = "" then ""
  else
    let n1 := pyStrip (pyLower s)
    let n2 := collapseWsAux false n1.data
    String.mk (n2.filter fun c => !isHeaderPunct c)

/-- A canonical-field synonym table (`CANONICAL_FIELDS` or any other), in
insertion order. -/
def SynTable : Type := List (String × List String)

/-- `self.canonical_fields.get(canonical_field, [])`. -/
def synonymsOf (table : SynTable) (field : String) : List String :=
  (((table : List (String × List String)).find? fun kv => kv.1 == field).map
    Prod.snd).getD []

/-- `exact_match`: 1.0 when some synonym normalizes to the normalized
header, else 0.0. -/
def exact_match (table : SynTable) (header field : String) : ℚ :=
  if (synonymsOf table field).any
      (fun syn => normalize_header syn == normalize_header header) then 1 else 0

/-- `substring_match`: the first synonym containing (or contained in) the
normalized header scores `0.85 + 0.1 * shorter/longer`; else 0.0. -/
def substring_match (table : SynTable) (header field : String) : ℚ :=
  match (synonymsOf table field).find? (fun syn =>
      pyIn (normalize_header header) (normalize_header syn) ||
        pyIn (normalize_header syn) (normalize_header header)) with
  | some syn =>
      85 / 100 +
        (1 / 10) * (min (normalize_header header).length (normalize_header syn).length : ℚ) /
          (max (normalize_header header).length (normalize_header syn).length : ℚ)
  | none => 0

/-- `fuzzy_match`: best `SequenceMatcher.ratio()` against the synonyms,
rescaled from [0.75, 1] into [0.70, 0.85]; below 0.75 the score is 0.0. -/
def fuzzyBest (table : SynTable) (header field : String) : ℚ :=
  ((synonymsOf table field).map
    (fun syn => smRatio (normalize_header header).data (normalize_header syn).data)).foldr max 0

def fuzzy_match (table : SynTable) (header field : String) : ℚ :=
  if fuzzyBest table header field ≥ 75 / 100 then
    70 / 100 + (fuzzyBest table header field - 75 / 100) * (6 / 10)
  else 0

/-- The single score/kind a field contributes inside `match_header`'s loop:
exact if non-zero, else substring if non-zero, else fuzzy. -/
def fieldScore (table : SynTable) (header field : String) : ℚ × String :=
  if exact_match table header field ≠ 0 then (exact_match table header field, "exact")
  else if substring_match table header field ≠ 0 then
    (substring_match table header field, "substring")
  else (fuzzy_match table header field, "fuzzy")

/-- One step of `match_header`'s best-score loop (strict improvement only,
so the first-seen field wins ties). -/
def mhStep (table : SynTable) (header : String)
    (best : Option String × ℚ × String) (field : String) : Option String × ℚ × String :=
  if (fieldScore table header field).1 > best.2.1 then
    (some field, (fieldScore table header field).1, (fieldScore table header field).2)
  else best

/-- The `(best_match, best_score, best_type)` state after `match_header`'s
for-loop: fields in table order, starting from no match and score 0.0. -/
def mhBest (table : SynTable) (header : String) : Option String × ℚ × String :=
  ((table : List (String × List String)).map Prod.fst).foldl
    (mhStep table header) (none, 0, "")

/-- `match_header`: return the best `(field, confidence, kind)` when the
best score reaches 0.70, else `None`. -/
def match_header (table : SynTable) (header : String) :
    Option (String × ℚ × String) :=
  match (mhBest table header).1 with
  | some f =>
      if (mhBest table header).2.1 ≥ 70 / 100 then
        some (f, (mhBest table header).2.1, (mhBest table header).2.2)
      else none
  | none => none

/-! ### C8 lemmas: score-tier bounds -/

lemma pyInAux_isInfix {n : List Char} : ∀ {l : List Char}, pyInAux n l = true → n <:+: l := by
  intro l
  induction l with
  | nil =>
      intro h
      unfold pyInAux at h
      have hn : n = [] := by simpa [List.isEmpty_iff] using h
      simp [hn]
  | cons c rest ih =>
      intro h
      unfold pyInAux at h
      simp only [Bool.or_eq_true] at h
      rcases h with h1 | h2
      · exact (List.isPrefixOf_iff_prefix.mp h1).isInfix
      · exact List.infix_cons (ih h2)

lemma pyIn_le {a b : String} (h : pyIn a b = true) : a.length ≤ b.length :=
  (pyInAux_isInfix h).length_le

lemma pyIn_eq_of_length {a b : String} (h : pyIn a b = true)
    (hl : a.length = b.length) : a = b :=
  String.ext ((pyInAux_isInfix h).eq_of_length hl)

lemma foldr_max_le {l : List ℚ} {c : ℚ} (hc : 0 ≤ c) (h : ∀ x ∈ l, x ≤ c) :
    l.foldr max 0 ≤ c := by
  induction l with
  | nil => simpa
  | cons a l ih =>
      simp only [List.foldr_cons]
      exact max_le (h a (List.mem_cons_self a l))
        (ih fun x hx => h x (List.mem_cons_of_mem _ hx))

lemma foldr_max_mem (l : List ℚ) : l.foldr max 0 = 0 ∨ l.foldr max 0 ∈ l := by
  induction l with
  | nil => left; rfl
  | cons a l ih =>
      simp only [List.foldr_cons]
      rcases max_choice a (l.foldr max 0) with h | h
      · right
        rw [h]
        exact List.mem_cons_self a l
      · rcases ih with h0 | hm
        · left
          rw [h, h0]
        · right
          rw [h]
          exact List.mem_cons_of_mem _ hm

lemma exact_match_cases (t : SynTable) (h f : String) :
    exact_match t h f = 0 ∨ exact_match t h f = 1 := by
  unfold exact_match
  split
  · right; rfl
  · left; rfl

lemma exact_match_zero {t : SynTable} {h f : String} (he : exact_match t h f = 0) :
    ∀ syn ∈ synonymsOf t f, normalize_header syn ≠ normalize_header h := by
  unfold exact_match at he
  split at he
  · exact absurd he one_ne_zero
  · next hany =>
      intro syn hsyn hcon
      exact hany (List.any_eq_true.mpr ⟨syn, hsyn, beq_iff_eq.mpr hcon⟩)

lemma exact_match_one {t : SynTable} {h f syn : String} (hsyn : syn ∈ synonymsOf t f)
    (heq : normalize_header syn = normalize_header h) : exact_match t h f = 1 := by
  unfold exact_match
  rw [if_pos]
  exact List.any_eq_true.mpr ⟨syn, hsyn, beq_iff_eq.mpr heq⟩

lemma substring_score_bound {m M : ℕ} (hne : m ≠ M) :
    85/100 ≤ 85/100 + (1/10 : ℚ) * (min (m : ℚ) (M : ℚ)) / (max (m : ℚ) (M : ℚ)) ∧
      85/100 + (1/10 : ℚ) * (min (m : ℚ) (M : ℚ)) / (max (m : ℚ) (M : ℚ)) < 95/100 := by
  have h1 : 0 ≤ min (m : ℚ) (M : ℚ) := le_min (by positivity) (by positivity)
  have h2 : min (m : ℚ) (M : ℚ) < max (m : ℚ) (M : ℚ) := by
    rcases Nat.lt_or_ge m M with hlt | hge
    · have q : (m : ℚ) < M := by exact_mod_cast hlt
      rw [min_eq_left (le_of_lt q), max_eq_right (le_of_lt q)]
      exact q
    · have hlt : M < m := lt_of_le_of_ne hge (Ne.symm hne)
      have q : (M : ℚ) < m := by exact_mod_cast hlt
      rw [min_eq_right (le_of_lt q), max_eq_left (le_of_lt q)]
      exact q
  have h3 : 0 < max (m : ℚ) (M : ℚ) := lt_of_le_of_lt h1 h2
  have h4 : min (m : ℚ) (M : ℚ) / max (m : ℚ) (M : ℚ) < 1 := (div_lt_one h3).mpr h2
  have h5 : 0 ≤ min (m : ℚ) (M : ℚ) / max (m : ℚ) (M : ℚ) := div_nonneg h1 (le_of_lt h3)
  constructor
  · rw [mul_div_assoc]
    linarith
  · rw [mul_div_assoc]
    linarith

lemma substring_match_bound {t : SynTable} {h f : String}
    (he : exact_match t h f = 0) :
    substring_match t h f = 0 ∨
      (85/100 ≤ substring_match t h f ∧ substring_match t h f < 95/100) := by
  unfold substring_match
  cases hfind : (synonymsOf t f).find? (fun syn =>
      pyIn (normalize_header h) (normalize_header syn) ||
        pyIn (normalize_header syn) (normalize_header h)) with
  | none => left; rfl
  | some syn =>
      right
      have hmem : syn ∈ synonymsOf t f := List.mem_of_find?_eq_some hfind
      have hpred := List.find?_some hfind
      have hne : normalize_header syn ≠ normalize_header h := exact_match_zero he syn hmem
      have hlne : (normalize_header h).length ≠ (normalize_header syn).length := by
        simp only [Bool.or_eq_true] at hpred
        rcases hpred with hin | hin
        · intro heq
          exact hne (pyIn_eq_of_length hin heq).symm
        · intro heq
          exact hne (pyIn_eq_of_length hin heq.symm)
      exact substring_score_bound hlne

lemma fuzzyBest_le_one (t : SynTable) (h f : String) : fuzzyBest t h f ≤ 1 := by
  unfold fuzzyBest
  apply foldr_max_le (by norm_num)
  intro x hx
  rcases List.mem_map.mp hx with ⟨syn, _, rfl⟩
  exact smRatio_le_one _ _

lemma fuzzyBest_ne_one {t : SynTable} {h f : String} (he : exact_match t h f = 0) :
    fuzzyBest t h f ≠ 1 := by
  intro hone
  unfold fuzzyBest at hone
  rcases foldr_max_mem ((synonymsOf t f).map
      (fun syn => smRatio (normalize_header h).data (normalize_header syn).data)) with h0 | hm
  · rw [hone] at h0
    exact one_ne_zero h0
  · rw [hone] at hm
    rcases List.mem_map.mp hm with ⟨syn, hsyn, heq⟩
    have hdata := smRatio_eq_one heq
    have hstr : normalize_header h = normalize_header syn := String.ext hdata
    have h1 := exact_match_one hsyn hstr.symm
    rw [h1] at he
    exact one_ne_zero he

lemma fuzzy_match_bound {t : SynTable} {h f : String} (he : exact_match t h f = 0) :
    fuzzy_match t h f = 0 ∨
      (70/100 ≤ fuzzy_match t h f ∧ fuzzy_match t h f < 85/100) := by
  unfold fuzzy_match
  split
  · next hge =>
      right
      have hlt1 : fuzzyBest t h f < 1 :=
        lt_of_le_of_ne (fuzzyBest_le_one t h f) (fuzzyBest_ne_one he)
      constructor
      · linarith
      · linarith
  · left; rfl

lemma fieldScore_exact {t : SynTable} {h f : String} (he : exact_match t h f = 1) :
    fieldScore t h f = (1, "exact") := by
  unfold fieldScore
  rw [he, if_pos one_ne_zero]

lemma fieldScore_substring {t : SynTable} {h f : String}
    (he : exact_match t h f = 0) (hs : substring_match t h f ≠ 0) :
    fieldScore t h f = (substring_match t h f, "substring") := by
  unfold fieldScore
  rw [if_neg (not_not.mpr he), if_pos hs]

lemma fieldScore_fuzzy_def {t : SynTable} {h f : String}
    (he : exact_match t h f = 0) (hs : substring_match t h f = 0) :
    fieldScore t h f = (fuzzy_match t h f, "fuzzy") := by
  unfold fieldScore
  rw [if_neg (not_not.mpr he), if_neg (not_not.mpr hs)]

lemma fieldScore_le_one (t : SynTable) (h f : String) : (fieldScore t h f).1 ≤ 1 := by
  by_cases he : exact_match t h f = 0
  · by_cases hs : substring_match t h f = 0
    · rw [fieldScore_fuzzy_def he hs]
      show fuzzy_match t h f ≤ 1
      rcases fuzzy_match_bound he with h0 | ⟨_, hub⟩
      · rw [h0]; norm_num
      · exact le_of_lt (lt_trans hub (by norm_num))
    · rw [fieldScore_substring he hs]
      show substring_match t h f ≤ 1
      rcases substring_match_bound he with h0 | ⟨_, hub⟩
      · exact absurd h0 hs
      · exact le_of_lt (lt_trans hub (by norm_num))
  · have h1 : exact_match t h f = 1 := (exact_match_cases t h f).resolve_left he
    rw [fieldScore_exact h1]

lemma fieldScore_one {t : SynTable} {h f : String} (h1 : (fieldScore t h f).1 = 1) :
    (fieldScore t h f).2 = "exact" ∧ exact_match t h f = 1 := by
  by_cases he : exact_match t h f = 0
  · exfalso
    by_cases hs : substring_match t h f = 0
    · rw [fieldScore_fuzzy_def he hs] at h1
      have h1' : fuzzy_match t h f = 1 := h1
      rcases fuzzy_match_bound he with h0 | ⟨_, hub⟩
      · rw [h1'] at h0
        exact one_ne_zero h0
      · rw [h1'] at hub
        norm_num at hub
    · rw [fieldScore_substring he hs] at h1
      have h1' : substring_match t h f = 1 := h1
      rcases substring_match_bound he with h0 | ⟨_, hub⟩
      · exact hs h0
      · rw [h1'] at hub
        norm_num at hub
  · have hE : exact_match t h f = 1 := (exact_match_cases t h f).resolve_left he
    rw [fieldScore_exact hE]
    exact ⟨rfl, hE⟩

lemma fieldScore_fuzzy_lt {t : SynTable} {h f : String}
    (hk : (fieldScore t h f).2 = "fuzzy") : (fieldScore t h f).1 < 85/100 := by
  by_cases he : exact_match t h f = 0
  · by_cases hs : substring_match t h f = 0
    · rw [fieldScore_fuzzy_def he hs]
      show fuzzy_match t h f < 85/100
      rcases fuzzy_match_bound he with h0 | ⟨_, hub⟩
      · rw [h0]; norm_num
      · exact hub
    · rw [fieldScore_substring he hs] at hk
      have hk' : "substring" = "fuzzy" := hk
      exact absurd hk' (by decide)
  · have hE : exact_match t h f = 1 := (exact_match_cases t h f).resolve_left he
    rw [fieldScore_exact hE] at hk
    have hk' : "exact" = "fuzzy" := hk
    exact absurd hk' (by decide)

lemma mhStep_ge (t : SynTable) (h : String) (b : Option String × ℚ × String)
    (f : String) : b.2.1 ≤ (mhStep t h b f).2.1 := by
  unfold mhStep
  split
  · next hlt => exact le_of_lt hlt
  · exact le_refl _

lemma mhStep_cand (t : SynTable) (h : String) (b : Option String × ℚ × String)
    (f : String) : (fieldScore t h f).1 ≤ (mhStep t h b f).2.1 := by
  unfold mhStep
  split
  · exact le_refl _
  · next hnlt => exact le_of_not_lt hnlt

lemma mhFold_ge_init (t : SynTable) (h : String) (l : List String) :
    ∀ b : Option String × ℚ × String, b.2.1 ≤ (l.foldl (mhStep t h) b).2.1 := by
  induction l with
  | nil => intro b; exact le_refl _
  | cons a l ih =>
      intro b
      rw [List.foldl_cons]
      exact le_trans (mhStep_ge t h b a) (ih (mhStep t h b a))

lemma mhFold_ge_cand (t : SynTable) (h : String) (l : List String) (f : String)
    (hf : f ∈ l) :
    ∀ b : Option String × ℚ × String, (fieldScore t h f).1 ≤ (l.foldl (mhStep t h) b).2.1 := by
  induction l with
  | nil => exact absurd hf (List.not_mem_nil f)
  | cons a l ih =>
      intro b
      rw [List.foldl_cons]
      rcases List.mem_cons.mp hf with rfl | hmem
      · exact le_trans (mhStep_cand t h b f) (mhFold_ge_init t h l (mhStep t h b f))
      · exact ih hmem (mhStep t h b a)

lemma mhFold_mem_or_init (t : SynTable) (h : String) (l : List String) :
    ∀ b : Option String × ℚ × String,
      l.foldl (mhStep t h) b = b ∨
        ∃ f ∈ l, l.foldl (mhStep t h) b =
          (some f, (fieldScore t h f).1, (fieldScore t h f).2) := by
  induction l with
  | nil => intro b; left; rfl
  | cons a l ih =>
      intro b
      rw [List.foldl_cons]
      rcases ih (mhStep t h b a) with hcase | ⟨f, hfmem, heq⟩
      · by_cases hgt : (fieldScore t h a).1 > b.2.1
        · right
          refine ⟨a, List.mem_cons_self a l, ?_⟩
          rw [hcase]
          unfold mhStep
          rw [if_pos hgt]
        · left
          rw [hcase]
          unfold mhStep
          rw [if_neg hgt]
      · right
        exact ⟨f, List.mem_cons_of_mem a hfmem, heq⟩

lemma mhBest_ge_cand (t : SynTable) (h : String) {f : String}
    (hf : f ∈ (t : List (String × List String)).map Prod.fst) :
    (fieldScore t h f).1 ≤ (mhBest t h).2.1 := by
  unfold mhBest
  exact mhFold_ge_cand t h _ f hf _

lemma mhBest_cases (t : SynTable) (h : String) :
    mhBest t h = (none, 0, "") ∨
      ∃ f ∈ (t : List (String × List String)).map Prod.fst,
        mhBest t h = (some f, (fieldScore t h f).1, (fieldScore t h f).2) := by
  unfold mhBest
  exact mhFold_mem_or_init t h _ _

lemma match_header_eq_of (t : SynTable) (h : String) {g : String} {X : ℚ} {K : String}
    (hF : mhBest t h = (some g, X, K)) :
    match_header t h = if X ≥ 70/100 then some (g, X, K) else none := by
  unfold match_header
  rw [hF]

lemma match_header_none_of (t : SynTable) (h : String)
    (hF : mhBest t h = (none, 0, "")) : match_header t h = none := by
  unfold match_header
  rw [hF]

/-- **C8** (amended).  Header matching respects strict tier priority: when a
field has an exact normalized synonym match, `match_header` returns an exact
match with confidence 1.0; when a field has a non-zero substring score, the
returned match is never of the fuzzy kind; and when every field scores below
0.70 the header is left unmapped.  Substring scores lie in the half-open
interval [0.85, 0.95) (the lower endpoint is attained, e.g. when the
normalized header is empty) and fuzzy scores in [0.70, 0.85). -/
theorem C8_amended_header_tier_priority (table : SynTable) (header : String) :
    (∀ f, exact_match table header f = 0 →
        substring_match table header f = 0 ∨
          (85/100 ≤ substring_match table header f ∧
            substring_match table header f < 95/100)) ∧
    (∀ f, exact_match table header f = 0 →
        fuzzy_match table header f = 0 ∨
          (70/100 ≤ fuzzy_match table header f ∧
            fuzzy_match table header f < 85/100)) ∧
    ((∃ f ∈ (table : List (String × List String)).map Prod.fst,
        exact_match table header f = 1) →
      ∃ g ∈ (table : List (String × List String)).map Prod.fst,
        exact_match table header g = 1 ∧
          match_header table header = some (g, 1, "exact")) ∧
    ((∃ f ∈ (table : List (String × List String)).map Prod.fst,
        exact_match table header f = 0 ∧ substring_match table header f ≠ 0) →
      ∃ g c k, match_header table header = some (g, c, k) ∧
        85/100 ≤ c ∧ k ≠ "fuzzy") ∧
    ((∀ f ∈ (table : List (String × List String)).map Prod.fst,
        (fieldScore table header f).1 < 70/100) →
      match_header table header = none) := by
  refine ⟨fun f he => substring_match_bound he,
    fun f he => fuzzy_match_bound he, ?_, ?_, ?_⟩
  · rintro ⟨f, hf, he⟩
    have hcand : (fieldScore table header f).1 = 1 := by
      rw [fieldScore_exact he]
    have hge : (1 : ℚ) ≤ (mhBest table header).2.1 := by
      have hc := mhBest_ge_cand table header hf
      rw [hcand] at hc
      exact hc
    rcases mhBest_cases table header with h0 | ⟨g, hg, hG⟩
    · exfalso
      rw [h0] at hge
      have h01 : (1 : ℚ) ≤ 0 := hge
      norm_num at h01
    · have hgev : (1 : ℚ) ≤ (fieldScore table header g).1 := by
        rw [hG] at hge
        exact hge
      have hgs : (fieldScore table header g).1 = 1 :=
        le_antisymm (fieldScore_le_one table header g) hgev
      obtain ⟨hk, hE⟩ := fieldScore_one hgs
      refine ⟨g, hg, hE, ?_⟩
      have hG' : mhBest table header = (some g, 1, "exact") := by
        rw [hG, hgs, hk]
      rw [match_header_eq_of table header hG', if_pos (by norm_num)]
  · rintro ⟨f, hf, he, hs⟩
    rcases substring_match_bound he with h0 | ⟨hlb, _⟩
    · exact absurd h0 hs
    have hcand : (85 : ℚ)/100 ≤ (fieldScore table header f).1 := by
      rw [fieldScore_substring he hs]
      exact hlb
    have hge : (85 : ℚ)/100 ≤ (mhBest table header).2.1 :=
      le_trans hcand (mhBest_ge_cand table header hf)
    rcases mhBest_cases table header with h0 | ⟨g, hg, hG⟩
    · exfalso
      rw [h0] at hge
      have h01 : (85 : ℚ)/100 ≤ 0 := hge
      norm_num at h01
    · have hgev : (85 : ℚ)/100 ≤ (fieldScore table header g).1 := by
        rw [hG] at hge
        exact hge
      refine ⟨g, (fieldScore table header g).1, (fieldScore table header g).2, ?_, hgev, ?_⟩
      · rw [match_header_eq_of table header hG, if_pos (by linarith)]
      · intro hkf
        have hfl := fieldScore_fuzzy_lt hkf
        linarith
  · intro hall
    rcases mhBest_cases table header with h0 | ⟨g, hg, hG⟩
    · exact match_header_none_of table header h0
    · rw [match_header_eq_of table header hG, if_neg]
      exact not_le.mpr (hall g hg)

/-- A one-field synonym table whose single synonym is `"x"`; the header
`"()"` normalizes to the empty string. -/
def mapTblPunct : SynTable := [("f", ["x"])]

/-- A one-field table with an exact synonym for the header `"Inv No"`. -/
def mapTbl1 : SynTable := [("invoice_no", ["inv no"])]

/-- A one-field table whose synonym `"bc"` is a proper substring of the
header `"abc"`. -/
def mapTbl2 : SynTable := [("f", ["bc"])]

/-- A one-field table with no synonyms: every score is 0. -/
def mapTbl3 : SynTable := [("g", ([] : List String))]

/-- **C8** counterexample.  The claim places all substring scores in the open
interval (0.85, 0.95), but a header that normalizes to the empty string
(here `"()"`, whose bracket characters are stripped) is a substring of every
synonym and scores exactly 0.85 = 85/100, the excluded lower endpoint; this
score surfaces as a real `match_header` result. -/
theorem C8_counterexample_substring_score_hits_085 :
    exact_match mapTblPunct "()" "f" = 0 ∧
    substring_match mapTblPunct "()" "f" = 85/100 ∧
    ¬ (85/100 : ℚ) < substring_match mapTblPunct "()" "f" ∧
    match_header mapTblPunct "()" = some ("f", 85/100, "substring") := by
  have hE : exact_match mapTblPunct "()" "f" = 0 := by decide
  have hS : substring_match mapTblPunct "()" "f" = 85/100 := by
    have hfind : (synonymsOf mapTblPunct "f").find? (fun syn =>
        pyIn (normalize_header "()") (normalize_header syn) ||
          pyIn (normalize_header syn) (normalize_header "()")) = some "x" := rfl
    simp only [substring_match, hfind]
    norm_num [min_def, max_def, show (normalize_header "()").length = 0 from rfl,
      show (normalize_header "x").length = 1 from rfl]
  have hfs : fieldScore mapTblPunct "()" "f" = (85/100, "substring") := by
    rw [fieldScore_substring hE (by rw [hS]; norm_num), hS]
  have hbest : mhBest mapTblPunct "()" = (some "f", 85/100, "substring") := by
    unfold mhBest
    have hfields : (mapTblPunct : List (String × List String)).map Prod.fst = ["f"] := rfl
    rw [hfields, List.foldl_cons, List.foldl_nil]
    unfold mhStep
    rw [hfs]
    norm_num
  refine ⟨hE, hS, ?_, ?_⟩
  · rw [hS]
    exact lt_irrefl _
  · rw [match_header_eq_of mapTblPunct "()" hbest, if_pos (by norm_num)]

/-- **C8** witness: tier priority at concrete tables.  `mapTbl1` has an exact
hit for `"Inv No"` and returns it with confidence 1; `mapTbl2` has a
substring hit for `"abc"` (in-range score, non-fuzzy result); `mapTbl3`
scores 0 everywhere and leaves `"zz"` unmapped. -/
theorem C8_amended_header_tier_priority_witness :
    (substring_match mapTbl2 "abc" "f" = 0 ∨
      (85/100 ≤ substring_match mapTbl2 "abc" "f" ∧
        substring_match mapTbl2 "abc" "f" < 95/100)) ∧
    (fuzzy_match mapTbl2 "abc" "f" = 0 ∨
      (70/100 ≤ fuzzy_match mapTbl2 "abc" "f" ∧
        fuzzy_match mapTbl2 "abc" "f" < 85/100)) ∧
    (∃ g ∈ (mapTbl1 : List (String × List String)).map Prod.fst,
      exact_match mapTbl1 "Inv No" g = 1 ∧
        match_header mapTbl1 "Inv No" = some (g, 1, "exact")) ∧
    (∃ g c k, match_header mapTbl2 "abc" = some (g, c, k) ∧
      85/100 ≤ c ∧ k ≠ "fuzzy") ∧
    match_header mapTbl3 "zz" = none := by
  have hs2 : substring_match mapTbl2 "abc" "f" ≠ 0 := by
    have hfind : (synonymsOf mapTbl2 "f").find? (fun syn =>
        pyIn (normalize_header "abc") (normalize_header syn) ||
          pyIn (normalize_header syn) (normalize_header "abc")) = some "bc" := rfl
    simp only [substring_match, hfind]
    norm_num [min_def, max_def, show (normalize_header "abc").length = 3 from rfl,
      show (normalize_header "bc").length = 2 from rfl]
  refine ⟨(C8_amended_header_tier_priority mapTbl2 "abc").1 "f" (by decide),
    (C8_amended_header_tier_priority mapTbl2 "abc").2.1 "f" (by decide),
    (C8_amended_header_tier_priority mapTbl1 "Inv No").2.2.1
      ⟨"invoice_no", by decide, by decide⟩,
    (C8_amended_header_tier_priority mapTbl2 "abc").2.2.2.1
      ⟨"f", by decide, by decide, hs2⟩,
    (C8_amended_header_tier_priority mapTbl3 "zz").2.2.2.2 ?_⟩
  intro f hf
  have hfg : f = "g" := List.mem_singleton.mp (show f ∈ ["g"] from hf)
  subst hfg
  have hfs3 : fieldScore mapTbl3 "zz" "g" = (0, "fuzzy") := by
    rw [fieldScore_fuzzy_def (by decide) (show substring_match mapTbl3 "zz" "g" = 0 from rfl)]
    have hfz : fuzzy_match mapTbl3 "zz" "g" = 0 := by
      unfold fuzzy_match
      rw [if_neg]
      have h0 : fuzzyBest mapTbl3 "zz" "g" = 0 := rfl
      rw [h0]
      norm_num
    rw [hfz]
  rw [hfs3]
  norm_num

end GSTR
